import Mathlib

/-!
Verification development for `patch_faulty_filter.py`, a corrective
post-processing pass over NILM HTML reports.  The script locates a small
number of fixed markup fragments with regular expressions, recomputes the
percentage breakdown and the efficiency figures, and rewrites the matched
fragments in place.

The embedding represents a report document as the ordered list of the
fragments the script's patterns can recognise (each fragment stores the raw
captured numeric texts, exactly what the regex groups `[\d.]+` / `[\d]+`
capture), together with inert free text.  Python `float(...)` on a captured
group is modelled by `pyFloat`, which fails (`none`) on texts such as
`"1.2.3"` that match `[\d.]+` but raise `ValueError`; an uncaught exception
of the script is modelled by an `Option.none` result.  `f'{x:.1f}'`
formatting of a non-negative value is modelled by `format1`.  Machine floats
are modelled by rationals: every number handled by the script is parsed from
a short decimal literal, and the only rounding in play is `round(x, 1)`,
modelled exactly by `round1` (Python rounds exact ties to even while
`round1` rounds them up; the two conventions agree away from exact
two-decimal ties, on which no claim depends).
-/

namespace NilmPatch

/-- Raw text is modelled as its list of characters. -/
abbrev Str := List Char

/-- Numeric value of a decimal digit character. -/
def charVal (c : Char) : ℕ := c.toNat - 48

/-- Value of a string of decimal digits (most significant first). -/
def natVal (s : Str) : ℕ := s.foldl (fun a c => 10 * a + charVal c) 0

/-- Decimal rendering of a natural number; structural recursion on a fuel
argument so that the kernel can evaluate it (`n + 1` units of fuel always
suffice, see `natReprAux_fuel`). -/
def natReprAux : ℕ → ℕ → Str
  | 0, _ => []
  | fuel + 1, n =>
    if n < 10 then [Nat.digitChar n]
    else natReprAux fuel (n / 10) ++ [Nat.digitChar (n % 10)]

/-- Decimal rendering of a natural number, most significant digit first. -/
def natRepr (n : ℕ) : Str := natReprAux (n + 1) n

/-- Decimal digit test, as the regex class `[\d]`. -/
def isDigitC (c : Char) : Bool := c.isDigit

/-- The regex character class `[\d.]`. -/
def isNumC (c : Char) : Bool := c.isDigit || c = '.'

/-- Nonempty run of `[\d.]` characters: the texts the `[\d.]+` groups capture. -/
def isNumText (s : Str) : Bool := !s.isEmpty && s.all isNumC

/-- Models Python `float(text)` on a text captured by a `[\d.]+` regex group:
succeeds on digit strings with at most one decimal point and at least one
digit, and fails (a `ValueError`, which aborts the script) otherwise, e.g. on
`"1.2.3"` or `".."`.  On texts containing characters outside `[\d.]` it also
returns `none`; such texts never reach `float` in the script because the
regex would not have matched them. -/
def pyFloat (s : Str) : Option ℚ :=
  if s = [] then none
  else if s.all isDigitC then some (natVal s)
  else
    let ip := s.takeWhile (fun c => !(c = '.'))
    match s.dropWhile (fun c => !(c = '.')) with
    | [] => none
    | _ :: fp =>
      if ('.') ∈ fp then none
      else if ip.all isDigitC && fp.all isDigitC && !(ip.isEmpty && fp.isEmpty) then
        some ((natVal ip : ℚ) + (natVal fp : ℚ) / 10 ^ fp.length)
      else none

/-- Models Python `round(x, 1)`: round to one decimal place. -/
def round1 (q : ℚ) : ℚ := ((round (10 * q) : ℤ) : ℚ) / 10

/-- A rational that is a whole number of tenths, i.e. the value of a
one-decimal literal. -/
def OneDec (q : ℚ) : Prop := ∃ k : ℤ, q = (k : ℚ) / 10

/-- Models Python `f'{x:.1f}'` for the non-negative values the script
formats: one digit after the decimal point. -/
def format1 (q : ℚ) : Str :=
  natRepr ((round (10 * q)).toNat / 10) ++ '.' :: natRepr ((round (10 * q)).toNat % 10)

/-- Lines 50-53 of `patch_faulty_filter.py`: `new_unmatched_pct =
round(100.0 - explained_pct - background_pct, 1)`, floored at `0.0` when
negative. -/
def newUnmatchedQ (e b : ℚ) : ℚ :=
  if round1 (100 - e - b) < 0 then 0 else round1 (100 - e - b)

/-- Lines 71-75: recomputed efficiency `round(explained_pct / targetable_pct
* 100, 1)` capped at `100.0` when `targetable_pct > 0`, else `0.0`. -/
def newEffQ (e t : ℚ) : ℚ :=
  if 0 < t then min (round1 (e / t * 100)) 100 else 0

/-!
## The document model

A document is the ordered list of the disjoint spans that the script's six
patterns can recognise, plus inert free text.  Each fragment stores exactly
the texts the regex capture groups would produce:

* `formulaBar e b u` — the breakdown formula (lines 31-35): the three
  `[\d.]+` captures for Explained, Background, Unmatched.  The color
  captures are irrelevant to the script (it keys its replacement on the
  literal `Unmatched (…%)` text only) and are not stored.
* `effEq a t col c` — the efficiency equation (lines 63-66):
  `<strong>Efficiency</strong> = a% / t% = <strong style="color:col;">c%</strong>`.
  The color capture participates in whole-match replacement, so it is kept.
* `heroCard col v` — the hero card (lines 88-91).
* `narrative p q` — the narrative sentence (lines 104-107).
* `chartValues v r` — a chart-data span `"values": [v, r]`; the raw texts
  are kept unrestricted so that spans such as `[114.3, -14.3]`, which the
  regex `"values": \[([\d.]+), [\d.]+\]` does *not* match, are
  representable.  The span is a regex match exactly when both texts are
  nonempty runs of `[\d.]`.
* `chartText n` — a chart annotation `"text": "n%"` with `n` a digit run
  (the regex `("text": ")([\d]+)(%")`), stored as its numeric value.
* `titleTag s` / `h1Tag s` — a `<title>s</title>` / `<h1>s</h1>` element.
* `text s` — any other markup.
-/

/-- One recognisable span of a report document. -/
inductive Frag where
  | text (s : Str)
  | formulaBar (e b u : Str)
  | effEq (a t col c : Str)
  | heroCard (col v : Str)
  | narrative (p q : Str)
  | chartValues (v r : Str)
  | chartText (n : ℕ)
  | titleTag (s : Str)
  | h1Tag (s : Str)
  deriving DecidableEq

/-- A report document: its recognisable spans in order. -/
abbrev Doc := List Frag

/-- Capture view of the breakdown-formula pattern (lines 31-35). -/
def asFormula : Frag → Option (Str × Str × Str)
  | .formulaBar e b u => some (e, b, u)
  | _ => none

/-- Capture view of the efficiency-equation pattern (lines 63-66). -/
def asEff : Frag → Option (Str × Str × Str × Str)
  | .effEq a t col c => some (a, t, col, c)
  | _ => none

/-- Capture view of the hero-card pattern (lines 88-91). -/
def asHero : Frag → Option (Str × Str)
  | .heroCard col v => some (col, v)
  | _ => none

/-- Capture view of the narrative-sentence pattern (lines 104-107). -/
def asNarr : Frag → Option (Str × Str)
  | .narrative p q => some (p, q)
  | _ => none

/-- Models `re.search`: the captures of the first span an extractor
recognises. -/
def findGen {α : Type} (ex : Frag → Option α) : Doc → Option α
  | [] => none
  | f :: t =>
    match ex f with
    | some r => some r
    | none => findGen ex t

/-- Models Python `str.replace` at fragment granularity: every fragment
equal to the full matched span `m` is replaced by `nf`. -/
def replaceEq (m nf f : Frag) : Frag := if f = m then nf else f

/-- Lines 56-59: `html.replace(f'Unmatched ({old:.1f}%)', f'Unmatched
({new:.1f}%)')`.  The literal hits a formula bar exactly when its raw
Unmatched capture equals the one-decimal rendering of the parsed old value
(the captures are `[\d.]+` runs, so no other alignment is possible); the
replacement is document-wide. -/
def replUnmatched (old nu : ℚ) (f : Frag) : Frag :=
  match f with
  | .formulaBar e b u =>
    if u = format1 old then .formulaBar e b (format1 nu) else .formulaBar e b u
  | f => f

/-- Lines 61-84: recompute the efficiency value in the formula bar.  The
inner `group(0).replace(f'{old:.1f}%</strong>', …)` can only hit the
trailing result (the only other `</strong>` in the match follows
`Efficiency`, not a digit), and hits it exactly when the raw capture is the
canonical one-decimal rendering of its parsed value; the outer
`html.replace(group(0), …)` then replaces every occurrence of the full
matched span.  A failed `float` on a capture aborts the script (`none`). -/
def effStep (e : ℚ) (l : Doc) : Option Doc :=
  match findGen asEff l with
  | none => some l
  | some (aT, tT, col, cT) =>
    match pyFloat cT, pyFloat tT with
    | some cOld, some t =>
      some (l.map (replaceEq (.effEq aT tT col cT)
        (if cT = format1 cOld then .effEq aT tT col (format1 (newEffQ e t))
         else .effEq aT tT col cT)))
    | _, _ => none

/-- Lines 86-100: clamp the hero card to `100.0` when its value exceeds
`100.0`, replacing every occurrence of the full matched span. -/
def heroStep (l : Doc) : Option Doc :=
  match findGen asHero l with
  | none => some l
  | some (col, vT) =>
    match pyFloat vT with
    | some v =>
      if 100 < v then
        some (l.map (replaceEq (.heroCard col vT) (.heroCard col (format1 (min v 100)))))
      else some l
    | none => none

/-- Lines 102-115: clamp the narrative percentage to `100.0` when it
exceeds `100.0`, replacing every occurrence of the full matched span. -/
def narrStep (l : Doc) : Option Doc :=
  match findGen asNarr l with
  | none => some l
  | some (p, qT) =>
    match pyFloat qT with
    | some q =>
      if 100 < q then
        some (l.map (replaceEq (.narrative p qT) (.narrative p (format1 (min q 100)))))
      else some l
    | none => none

/-- Lines 120-124: the `fix_donut` replacement callback.  A `chartValues`
span is a match of `"values": \[([\d.]+), [\d.]+\]` exactly when both raw
texts are nonempty `[\d.]` runs — in particular a negative remainder text
such as `-14.3` is *not* matched.  On a match the first capture is parsed
(a failed parse aborts the script) and, if above `100.0`, the span is
rewritten to the literal `"values": [100.0, 0]`. -/
def fix_donut (f : Frag) : Option Frag :=
  match f with
  | .chartValues vT rT =>
    if isNumText vT && isNumText rT then
      match pyFloat vT with
      | some v =>
        some (if 100 < v then .chartValues "100.0".data "0".data else .chartValues vT rT)
      | none => none
    else some f
  | f => some f

/-- Lines 133-139: the annotation replacement callback of the source,
there named with a trailing underscore-annotation suffix: rewrite
an integer chart annotation above `100` to the literal `100`. -/
def fix_donut_annot (f : Frag) : Frag :=
  match f with
  | .chartText n => if 100 < n then .chartText 100 else .chartText n
  | f => f

/-- Left-to-right effectful map, as `re.sub` applies its callback to each
match in order; a callback failure (`ValueError`) aborts the script. -/
def optMapM (g : Frag → Option Frag) : Doc → Option Doc
  | [] => some []
  | f :: t =>
    match g f, optMapM g t with
    | some f', some t' => some (f' :: t')
    | _, _ => none

/-- Lines 50-147 of `patch_report`, after the already-correct guard: the
five rewrite passes in source order. -/
def patchSteps (e _b u : ℚ) (doc : Doc) : Option Doc :=
  match effStep e (doc.map (replUnmatched u (newUnmatchedQ e _b))) with
  | none => none
  | some d2 =>
    match heroStep d2 with
    | none => none
    | some d3 =>
      match narrStep d3 with
      | none => none
      | some d4 =>
        match optMapM fix_donut d4 with
        | none => none
        | some d5 => some (d5.map fix_donut_annot)

/-- Lines 26-147: `patch_report`.  Returns the document unchanged when the
breakdown formula is absent (lines 37-39) or already sums to within `0.5`
of `100` (lines 45-48); `none` models an uncaught `ValueError` from a
malformed numeral in a matched fragment. -/
def patch_report (doc : Doc) : Option Doc :=
  match findGen asFormula doc with
  | none => some doc
  | some (eT, bT, uT) =>
    match pyFloat eT, pyFloat bT, pyFloat uT with
    | some e, some b, some u =>
      if |e + b + u - 100| < 1/2 then some doc
      else patchSteps e b u doc
    | _, _, _ => none

/-!
## Title relabeling (lines 150-179)
-/

/-- Line 150: `NAN_TITLE_PREFIX`. -/
def NAN_TITLE_PREFIX : Str := "Dynamic Threshold NaN Filled".data

/-- The per-house `<title>` content, line 161. -/
def houseTitleStr (id : Str) : Str := "Dynamic Threshold Report - House ".data ++ id

/-- The per-house `<h1>` content, line 165. -/
def houseH1Str (id : Str) : Str := "Dynamic Threshold Analysis - House ".data ++ id

/-- The relabelled per-house title/heading content, lines 162 and 166. -/
def nanHouseStr (id : Str) : Str := NAN_TITLE_PREFIX ++ " - House ".data ++ id

/-- The aggregate title/heading content, lines 171 and 175. -/
def aggTitleStr : Str := "Dynamic Threshold - Aggregate Report".data

/-- The relabelled aggregate title/heading content, lines 172 and 176. -/
def nanAggStr : Str := NAN_TITLE_PREFIX ++ " - Aggregate Report".data

/-- Models `re.search(r'dynamic_report_(\d+)', filename)` (line 155): the
digit run following the leftmost occurrence of the literal that is followed
by at least one digit. -/
def findHouse : Str → Option Str
  | [] => none
  | c :: rest =>
    if "dynamic_report_".data.isPrefixOf (c :: rest) then
      let ds := ((c :: rest).drop 15).takeWhile isDigitC
      if ds = [] then findHouse rest else some ds
    else findHouse rest

/-- The per-house replacements of lines 160-167, at fragment granularity. -/
def houseRen (id : Str) (f : Frag) : Frag :=
  match f with
  | .titleTag s => if s = houseTitleStr id then .titleTag (nanHouseStr id) else .titleTag s
  | .h1Tag s => if s = houseH1Str id then .h1Tag (nanHouseStr id) else .h1Tag s
  | f => f

/-- The aggregate replacements of lines 169-177, at fragment granularity. -/
def aggRen (f : Frag) : Frag :=
  match f with
  | .titleTag s => if s = aggTitleStr then .titleTag nanAggStr else .titleTag s
  | .h1Tag s => if s = aggTitleStr then .h1Tag nanAggStr else .h1Tag s
  | f => f

/-- Lines 153-179: `rename_titles`. -/
def rename_titles (doc : Doc) (filename : Str) : Doc :=
  match findHouse filename with
  | some id => doc.map (houseRen id)
  | none => doc.map aggRen

/-!
## Directory processing (lines 182-240)

The filesystem below a target directory is modelled as an association list
from file name to document; `lookupFS` is a file read, `writeFS` a file
overwrite.
-/

/-- The contents of one directory: file name to document. -/
abbrev FS := List (Str × Doc)

/-- Read a file, `none` when absent. -/
def lookupFS : FS → Str → Option Doc
  | [], _ => none
  | (n, d) :: t, name => if n = name then some d else lookupFS t name

/-- Overwrite an existing file. -/
def writeFS : FS → Str → Doc → FS
  | [], _, _ => []
  | (n, d) :: t, name, doc => if n = name then (n, doc) :: t else (n, d) :: writeFS t name doc

/-- Bool substring test. -/
def isInfixB (p s : Str) : Bool :=
  (List.range (s.length + 1)).any (fun i => p.isPrefixOf (s.drop i))

/-- Line 195: `'Detection Efficiency' in original`.  The literal occurs in
every hero-card span (the hero pattern requires the adjacent
`>Detection Efficiency</div>` label) and possibly in free text; no other
recognised span contains it. -/
def containsDE (doc : Doc) : Bool :=
  doc.any fun f =>
    match f with
    | .heroCard _ _ => true
    | .text s => isInfixB "Detection Efficiency".data s
    | _ => false

/-- Glob test for `dynamic_report_*.html` (line 186).  A name shorter than
both literals combined cannot satisfy prefix and suffix simultaneously
(the prefix contains no `.`), so this is exactly the glob. -/
def isPerHouse (name : Str) : Bool :=
  "dynamic_report_".data.isPrefixOf name && ".html".data.isSuffixOf name

/-- Lexicographic character-code comparison, as Python string `<`. -/
def strLtB : Str → Str → Bool
  | [], [] => false
  | [], _ :: _ => true
  | _ :: _, [] => false
  | a :: s, b :: t => if a = b then strLtB s t else decide (a.toNat < b.toNat)

/-- Stable insertion, ascending. -/
def insertSorted (x : Str) : List Str → List Str
  | [] => [x]
  | y :: t => if strLtB y x then y :: insertSorted x t else x :: y :: t

/-- Models `sorted(files)` (line 190); any deterministic ascending sort. -/
def sortStr : List Str → List Str
  | [] => []
  | x :: t => insertSorted x (sortStr t)

/-- The two fixed aggregate file names, line 215. -/
def aggNames : List Str := ["report.html".data, "nan_comparison.html".data]

/-- Lines 190-212: the per-house loop.  State: current directory contents
and count of modified documents; `none` models an uncaught exception. -/
def goHouses (dry : Bool) : List Str → FS → ℕ → Option (FS × ℕ)
  | [], fs, cnt => some (fs, cnt)
  | name :: rest, fs, cnt =>
    match lookupFS fs name with
    | none => goHouses dry rest fs cnt
    | some original =>
      match (if containsDE original then patch_report original else some original) with
      | none => none
      | some p1 =>
        let patched := rename_titles p1 name
        if patched = original then goHouses dry rest fs cnt
        else goHouses dry rest (if dry then fs else writeFS fs name patched) (cnt + 1)

/-- Lines 214-235: the aggregate loop (title rename only). -/
def goAggs (dry : Bool) : List Str → FS → ℕ → FS × ℕ
  | [], fs, cnt => (fs, cnt)
  | name :: rest, fs, cnt =>
    match lookupFS fs name with
    | none => goAggs dry rest fs cnt
    | some original =>
      let patched := rename_titles original name
      if patched = original then goAggs dry rest fs cnt
      else goAggs dry rest (if dry then fs else writeFS fs name patched) (cnt + 1)

/-- Lines 182-240: `process_directory`.  Returns the directory contents
after the call together with the modified-document count. -/
def process_directory (fs : FS) (dry : Bool) : Option (FS × ℕ) :=
  match goHouses dry (sortStr ((fs.map Prod.fst).filter isPerHouse)) fs 0 with
  | none => none
  | some (fs1, c1) => some (goAggs dry aggNames fs1 c1)

/-!
## Command driver (lines 243-259)

The world maps a directory argument to its contents, `none` when the
argument is not a directory.  `main` takes `sys.argv[1:]`.
-/

/-- The `--dry-run` flag. -/
def dryFlag : Str := "--dry-run".data

/-- Line 249: the non-flag arguments. -/
def dirArgs (args : List Str) : List Str := args.filter (fun a => !(a = dryFlag))

/-- Lines 252-257: the directory loop, threading the filesystem state. -/
def mainGo (dry : Bool) : (Str → Option FS) → List Str → ℕ → Option ℕ
  | _, [], total => some total
  | world, d :: rest, total =>
    match world d with
    | none => mainGo dry world rest total
    | some fs =>
      match process_directory fs dry with
      | none => none
      | some (fs', c) =>
        mainGo dry (fun x => if x = d then some fs' else world x) rest (total + c)

/-- Lines 243-259: `main` over `args = sys.argv[1:]`.  `some code` is a
completed run with that exit code (falling off `main` exits `0`; the usage
error exits `1`); `none` models an uncaught exception. -/
def mainRun (args : List Str) (world : Str → Option FS) : Option ℕ :=
  if args = [] then some 1
  else
    match mainGo (args.any (fun a => a = dryFlag)) world (dirArgs args) 0 with
    | none => none
    | some _ => some 0

/-!
## String-level donut substitution (lines 126-130)

For the chart-pair claim the `re.sub(r'"values": \[([\d.]+), [\d.]+\]',
fix_donut, html)` call is additionally embedded directly over text.  In
this pattern each `[\d.]+` is bounded by a character outside `[\d.]`, so
greedy matching is deterministic (no productive backtracking: shortening a
group leaves a `[\d.]` character where a literal `,`, ` ` or `]` is
required), and `re.sub` scans left to right, resuming after each
non-overlapping match.
-/

/-- Consume an exact literal. -/
def dropLit : Str → Str → Option Str
  | [], s => some s
  | _ :: _, [] => none
  | l :: lt, c :: ct => if c = l then dropLit lt ct else none

/-- Attempt the pattern `"values": \[([\d.]+), [\d.]+\]` at the head of the
text; on success return the two captures and the rest of the text. -/
def matchValuesAt (s : Str) : Option (Str × Str × Str) :=
  match dropLit "\"values\": [".data s with
  | none => none
  | some s1 =>
    let g1 := s1.takeWhile isNumC
    if g1 = [] then none
    else
      match dropLit ", ".data (s1.dropWhile isNumC) with
      | none => none
      | some s3 =>
        let g2 := s3.takeWhile isNumC
        if g2 = [] then none
        else
          match s3.dropWhile isNumC with
          | ']' :: s5 => some (g1, g2, s5)
          | _ => none

/-- The `re.sub` scan, fuelled for structural recursion (one unit per
consumed character always suffices). -/
def subValuesGo : ℕ → Str → Option Str
  | 0, s => some s
  | _ + 1, [] => some []
  | fuel + 1, c :: rest =>
    match matchValuesAt (c :: rest) with
    | some (g1, g2, after) =>
      match pyFloat g1 with
      | none => none
      | some v =>
        match subValuesGo fuel after with
        | none => none
        | some t =>
          some ((if 100 < v then "\"values\": [100.0, 0]".data
                 else "\"values\": [".data ++ g1 ++ ", ".data ++ g2 ++ [']']) ++ t)
    | none =>
      match subValuesGo fuel rest with
      | none => none
      | some t => some (c :: t)

/-- Lines 126-130: the donut-chart `re.sub` over raw text. -/
def subValues (s : Str) : Option Str := subValuesGo (s.length + 1) s

/-- A fragment whose numeric texts parse wherever the script parses them:
the breakdown captures (lines 41-43), the equation result and divisor
(lines 69-70), the hero value (line 94), the narrative value (line 110) and
the first capture of a matched chart pair (line 121).  Other texts are never
passed to `float`. -/
def fragWF : Frag → Bool
  | .formulaBar e b u => (pyFloat e).isSome && (pyFloat b).isSome && (pyFloat u).isSome
  | .effEq _ t _ c => (pyFloat t).isSome && (pyFloat c).isSome
  | .heroCard _ v => (pyFloat v).isSome
  | .narrative _ q => (pyFloat q).isSome
  | .chartValues v r => !(isNumText v && isNumText r) || (pyFloat v).isSome
  | _ => true

/-!
## Arithmetic and parsing lemmas
-/

theorem natReprAux_fuel : ∀ n f₁ f₂, n < f₁ → n < f₂ → natReprAux f₁ n = natReprAux f₂ n := by
  intro n
  induction n using Nat.strong_induction_on with
  | _ n ih =>
    intro f₁ f₂ h₁ h₂
    match f₁, f₂ with
    | g₁ + 1, g₂ + 1 =>
      by_cases h : n < 10
      · simp [natReprAux, h]
      · simp only [natReprAux, h, if_false]
        have hd : n / 10 < n := Nat.div_lt_self (by omega) (by omega)
        rw [ih (n / 10) hd g₁ g₂ (by omega) (by omega)]

theorem natRepr_eq (n : ℕ) :
    natRepr n = if n < 10 then [Nat.digitChar n]
                else natRepr (n / 10) ++ [Nat.digitChar (n % 10)] := by
  by_cases h : n < 10
  · simp [natRepr, natReprAux, h]
  · rw [if_neg h]
    show natReprAux (n + 1) n = _
    conv_lhs => rw [natReprAux]
    rw [if_neg h]
    congr 1
    exact natReprAux_fuel (n / 10) n (n / 10 + 1) (by omega) (by omega)

theorem digitChar_isDigit {d : ℕ} (h : d < 10) : (Nat.digitChar d).isDigit = true := by
  interval_cases d <;> decide

theorem charVal_digitChar {d : ℕ} (h : d < 10) : charVal (Nat.digitChar d) = d := by
  interval_cases d <;> decide

theorem natRepr_digits : ∀ n, ∀ c ∈ natRepr n, c.isDigit = true := by
  intro n
  induction n using Nat.strong_induction_on with
  | _ n ih =>
    intro c hc
    rw [natRepr_eq] at hc
    by_cases h : n < 10
    · simp [h] at hc
      subst hc; exact digitChar_isDigit h
    · simp [h] at hc
      rcases hc with hc | hc
      · exact ih (n / 10) (Nat.div_lt_self (by omega) (by omega)) c hc
      · subst hc; exact digitChar_isDigit (Nat.mod_lt _ (by omega))

theorem natRepr_ne_nil (n : ℕ) : natRepr n ≠ [] := by
  rw [natRepr_eq]
  by_cases h : n < 10 <;> simp [h]

theorem natVal_append (s : Str) (c : Char) : natVal (s ++ [c]) = 10 * natVal s + charVal c := by
  simp [natVal, List.foldl_append]

theorem natVal_natRepr : ∀ n, natVal (natRepr n) = n := by
  intro n
  induction n using Nat.strong_induction_on with
  | _ n ih =>
    rw [natRepr_eq]
    by_cases h : n < 10
    · simp [h, natVal, charVal_digitChar h]
    · simp only [h, if_false]
      rw [natVal_append, ih (n / 10) (Nat.div_lt_self (by omega) (by omega)),
        charVal_digitChar (Nat.mod_lt _ (by omega))]
      omega

theorem takeWhile_no_dot (a b : Str) (h : ∀ c ∈ a, ¬(c = '.')) :
    (a ++ '.' :: b).takeWhile (fun c => !(c = '.')) = a ∧
    (a ++ '.' :: b).dropWhile (fun c => !(c = '.')) = '.' :: b := by
  induction a with
  | nil => constructor <;> simp [List.takeWhile_cons, List.dropWhile_cons]
  | cons x t iht =>
    have hx : ¬(x = '.') := h x (by simp)
    have ht := iht (fun c hc => h c (by simp [hc]))
    constructor
    · simp [List.takeWhile_cons, hx, ht.1]
    · simp [List.dropWhile_cons, hx, ht.2]

theorem dot_not_digit : ('.').isDigit = false := by decide

theorem pyFloat_format1_eval (q : ℚ) :
    pyFloat (format1 q) = some (((round (10 * q)).toNat : ℚ) / 10) := by
  obtain ⟨k, hk⟩ : ∃ k, (round (10 * q)).toNat = k := ⟨_, rfl⟩
  rw [hk]
  have hmod : k % 10 < 10 := Nat.mod_lt _ (by omega)
  have hb : natRepr (k % 10) = [Nat.digitChar (k % 10)] := by rw [natRepr_eq, if_pos hmod]
  have fmt : format1 q = natRepr (k / 10) ++ '.' :: natRepr (k % 10) := by rw [format1, hk]
  have hdig₁ := natRepr_digits (k / 10)
  have hdig₂ := natRepr_digits (k % 10)
  have hnodot : ∀ c ∈ natRepr (k / 10), ¬(c = '.') := by
    intro c hc hcd
    have hd := hdig₁ c hc
    rw [hcd] at hd
    exact absurd hd (by decide)
  have hsplit := takeWhile_no_dot (natRepr (k / 10)) (natRepr (k % 10)) hnodot
  have hne : ¬(format1 q = []) := by
    rw [fmt]
    intro hcon
    exact natRepr_ne_nil (k / 10) (List.append_eq_nil.1 hcon).1
  have hnotall : ¬((format1 q).all isDigitC = true) := by
    rw [fmt]
    simp only [List.all_append, List.all_cons, Bool.and_eq_true]
    rintro ⟨-, hdot, -⟩
    exact absurd hdot (by decide)
  have hdotmem : ¬(('.') ∈ natRepr (k % 10)) := by
    intro hcon
    exact absurd (hdig₂ _ hcon) (by decide)
  have hall₁ : (natRepr (k / 10)).all isDigitC = true :=
    List.all_eq_true.2 (fun c hc => hdig₁ c hc)
  have hall₂ : (natRepr (k % 10)).all isDigitC = true :=
    List.all_eq_true.2 (fun c hc => hdig₂ c hc)
  have hne₂ : (natRepr (k / 10)).isEmpty = false := by
    cases hcase : natRepr (k / 10) with
    | nil => exact absurd hcase (natRepr_ne_nil _)
    | cons x t => rfl
  rw [pyFloat, if_neg hne, if_neg hnotall]
  simp only [fmt, hsplit.1, hsplit.2]
  rw [if_neg hdotmem, if_pos (by rw [hall₁, hall₂, hne₂]; rfl)]
  rw [natVal_natRepr, natVal_natRepr, hb]
  congr 1
  have h1 : 10 * (k / 10) + k % 10 = k := Nat.div_add_mod k 10
  have h2 : ((k : ℕ) : ℚ) = 10 * ((k / 10 : ℕ) : ℚ) + ((k % 10 : ℕ) : ℚ) := by
    exact_mod_cast h1.symm
  simp only [List.length_singleton, pow_one]
  rw [h2]
  ring

theorem pyFloat_format1_isSome (q : ℚ) : (pyFloat (format1 q)).isSome = true := by
  rw [pyFloat_format1_eval]; rfl

theorem pyFloat_format1 (q : ℚ) (h0 : 0 ≤ q) (hd : OneDec q) :
    pyFloat (format1 q) = some q := by
  obtain ⟨k, rfl⟩ := hd
  have h10 : (10 : ℚ) * ((k : ℚ) / 10) = (k : ℚ) := by field_simp
  have hk0 : 0 ≤ k := by
    by_contra hneg
    push_neg at hneg
    have hlt : ((k : ℚ)) < 0 := by exact_mod_cast hneg
    have hq : (k : ℚ) / 10 < 0 := div_neg_of_neg_of_pos hlt (by norm_num)
    linarith
  rw [pyFloat_format1_eval, h10, round_intCast]
  have hcast : ((k.toNat : ℕ) : ℚ) = ((k : ℤ) : ℚ) := by
    exact_mod_cast Int.toNat_of_nonneg hk0
  rw [hcast]

theorem pyFloat_nonneg {s : Str} {q : ℚ} (h : pyFloat s = some q) : 0 ≤ q := by
  simp only [pyFloat] at h
  split_ifs at h with h₁ h₂
  · have hq := Option.some.inj h
    rw [← hq]; positivity
  · split at h
    · exact absurd h (by simp)
    · split_ifs at h with h₃
      · have hq := Option.some.inj h
        rw [← hq]; positivity

theorem round1_OneDec (q : ℚ) : OneDec (round1 q) := ⟨round (10 * q), rfl⟩

theorem round1_self {q : ℚ} (h : OneDec q) : round1 q = q := by
  obtain ⟨k, rfl⟩ := h
  rw [round1, show (10 : ℚ) * ((k : ℚ) / 10) = (k : ℚ) by field_simp, round_intCast]

theorem round1_nonneg {q : ℚ} (h : 0 ≤ q) : 0 ≤ round1 q := by
  rw [round1]
  apply div_nonneg _ (by norm_num)
  have : (0 : ℤ) ≤ round (10 * q) := by
    rw [round_eq]
    rw [Int.le_floor]
    push_cast
    linarith
  exact_mod_cast this

theorem newUnmatchedQ_nonneg (e b : ℚ) : 0 ≤ newUnmatchedQ e b := by
  rw [newUnmatchedQ]
  split_ifs with h
  · exact le_refl 0
  · exact not_lt.1 h

theorem newUnmatchedQ_OneDec (e b : ℚ) : OneDec (newUnmatchedQ e b) := by
  rw [newUnmatchedQ]
  split_ifs
  · exact ⟨0, by norm_num⟩
  · exact round1_OneDec _

theorem OneDec_sub {e b : ℚ} (he : OneDec e) (hb : OneDec b) : OneDec (100 - e - b) := by
  obtain ⟨k₁, rfl⟩ := he
  obtain ⟨k₂, rfl⟩ := hb
  exact ⟨1000 - k₁ - k₂, by push_cast; ring⟩

theorem newUnmatchedQ_of_le {e b : ℚ} (he : OneDec e) (hb : OneDec b) (hle : e + b ≤ 100) :
    newUnmatchedQ e b = round1 (100 - e - b) ∧ e + b + newUnmatchedQ e b = 100 := by
  have hx : round1 (100 - e - b) = 100 - e - b := round1_self (OneDec_sub he hb)
  have hnn : 0 ≤ round1 (100 - e - b) := by rw [hx]; linarith
  constructor
  · rw [newUnmatchedQ, if_neg (not_lt.2 hnn)]
  · rw [newUnmatchedQ, if_neg (not_lt.2 hnn), hx]; ring

theorem newEffQ_nonneg {e t : ℚ} (he : 0 ≤ e) : 0 ≤ newEffQ e t := by
  rw [newEffQ]
  split_ifs with h
  · exact le_min (round1_nonneg (by positivity)) (by norm_num)
  · exact le_refl 0

theorem newEffQ_le_100 (e t : ℚ) : newEffQ e t ≤ 100 := by
  rw [newEffQ]
  split_ifs with h
  · exact min_le_right _ _
  · norm_num

theorem newEffQ_OneDec (e t : ℚ) : OneDec (newEffQ e t) := by
  rw [newEffQ]
  split_ifs with h
  · rcases min_cases (round1 (e / t * 100)) 100 with ⟨heq, _⟩ | ⟨heq, _⟩
    · rw [heq]; exact round1_OneDec _
    · rw [heq]; exact ⟨1000, by norm_num⟩
  · exact ⟨0, by norm_num⟩

theorem min_100_OneDec {v : ℚ} (h : OneDec v) : OneDec (min v 100) := by
  rcases min_cases v 100 with ⟨heq, _⟩ | ⟨heq, _⟩
  · rw [heq]; exact h
  · rw [heq]; exact ⟨1000, by norm_num⟩

/-!
## Structural lemmas about the document model
-/

theorem asFormula_eq_some {f : Frag} {e b u : Str} :
    asFormula f = some (e, b, u) ↔ f = .formulaBar e b u := by
  cases f <;> simp [asFormula]

theorem asEff_eq_some {f : Frag} {a t col c : Str} :
    asEff f = some (a, t, col, c) ↔ f = .effEq a t col c := by
  cases f <;> simp [asEff]

theorem asHero_eq_some {f : Frag} {col v : Str} :
    asHero f = some (col, v) ↔ f = .heroCard col v := by
  cases f <;> simp [asHero]

theorem asNarr_eq_some {f : Frag} {p q : Str} :
    asNarr f = some (p, q) ↔ f = .narrative p q := by
  cases f <;> simp [asNarr]

theorem findGen_map_eq {α : Type} (ex : Frag → Option α) (g : Frag → Frag)
    (hg : ∀ f, ex (g f) = ex f) : ∀ l : Doc, findGen ex (l.map g) = findGen ex l := by
  intro l
  induction l with
  | nil => rfl
  | cons f t ih =>
    simp only [List.map_cons, findGen, hg f]
    cases hf : ex f
    · simp only [ih]
    · rfl

theorem findGen_optMapM_eq {α : Type} (ex : Frag → Option α) (gd : Frag → Option Frag)
    (hg : ∀ f f', gd f = some f' → ex f' = ex f) :
    ∀ l l', optMapM gd l = some l' → findGen ex l' = findGen ex l := by
  intro l
  induction l with
  | nil =>
    intro l' h
    rw [optMapM] at h
    rw [← Option.some.inj h]
  | cons f t ih =>
    intro l' h
    rw [optMapM] at h
    rcases hf : gd f with _ | f' <;> rw [hf] at h
    · exact absurd h (by simp)
    · rcases ht : optMapM gd t with _ | t' <;> rw [ht] at h
      · exact absurd h (by simp)
      · rw [← Option.some.inj h]
        simp only [findGen, hg f f' hf]
        cases hex : ex f
        · simp only [ih t' ht]
        · rfl

theorem replaceEq_self (m f : Frag) : replaceEq m m f = f := by
  rw [replaceEq]
  split_ifs with h
  · exact h.symm
  · rfl

theorem ex_replaceEq {α : Type} (ex : Frag → Option α) {m nf : Frag}
    (hm : ex m = none) (hnf : ex nf = none) (f : Frag) :
    ex (replaceEq m nf f) = ex f := by
  rw [replaceEq]
  split_ifs with h
  · rw [hnf, h, hm]
  · rfl

theorem map_eq_self {l : Doc} {g : Frag → Frag} (h : ∀ f ∈ l, g f = f) : l.map g = l := by
  induction l with
  | nil => rfl
  | cons f t ih =>
    simp only [List.map_cons, h f (by simp)]
    rw [ih (fun x hx => h x (by simp [hx]))]

theorem optMapM_mem {gd : Frag → Option Frag} :
    ∀ {l l' : Doc}, optMapM gd l = some l' → ∀ f' ∈ l', ∃ f ∈ l, gd f = some f' := by
  intro l
  induction l with
  | nil =>
    intro l' h f' hf'
    rw [optMapM] at h
    rw [← Option.some.inj h] at hf'
    exact absurd hf' (by simp)
  | cons f t ih =>
    intro l' h f' hf'
    rw [optMapM] at h
    rcases hf : gd f with _ | g <;> rw [hf] at h
    · exact absurd h (by simp)
    · rcases ht : optMapM gd t with _ | t' <;> rw [ht] at h
      · exact absurd h (by simp)
      · rw [← Option.some.inj h] at hf'
        rcases List.mem_cons.1 hf' with rfl | hmem
        · exact ⟨f, by simp, hf⟩
        · obtain ⟨f₀, hf₀, hg⟩ := ih ht f' hmem
          exact ⟨f₀, by simp [hf₀], hg⟩

theorem optMapM_pure {gd : Frag → Option Frag} :
    ∀ {l : Doc}, (∀ f ∈ l, gd f = some f) → optMapM gd l = some l := by
  intro l
  induction l with
  | nil => intro _; rfl
  | cons f t ih =>
    intro h
    rw [optMapM, h f (by simp), ih (fun x hx => h x (by simp [hx]))]

theorem optMapM_isSome {gd : Frag → Option Frag} :
    ∀ {l : Doc}, (∀ f ∈ l, ∃ f', gd f = some f') → ∃ l', optMapM gd l = some l' := by
  intro l
  induction l with
  | nil => intro _; exact ⟨[], rfl⟩
  | cons f t ih =>
    intro h
    obtain ⟨f', hf'⟩ := h f (by simp)
    obtain ⟨t', ht'⟩ := ih (fun x hx => h x (by simp [hx]))
    exact ⟨f' :: t', by rw [optMapM, hf', ht']⟩

theorem fix_donut_chartValues {f f' : Frag} (h : fix_donut f = some f') :
    (∃ v r v' r', f = Frag.chartValues v r ∧ f' = Frag.chartValues v' r') ∨ f' = f := by
  cases f with
  | chartValues v r =>
    left
    simp only [fix_donut] at h
    split_ifs at h with h₁
    · rcases hp : pyFloat v with _ | q <;> rw [hp] at h
      · exact absurd h (by simp)
      · have hval := Option.some.inj h
        split_ifs at hval <;> exact ⟨v, r, _, _, rfl, hval.symm⟩
    · exact ⟨v, r, v, r, rfl, (Option.some.inj h).symm⟩
  | text s => exact Or.inr (Option.some.inj h).symm
  | formulaBar e b u => exact Or.inr (Option.some.inj h).symm
  | effEq a t col c => exact Or.inr (Option.some.inj h).symm
  | heroCard col v => exact Or.inr (Option.some.inj h).symm
  | narrative p q => exact Or.inr (Option.some.inj h).symm
  | chartText n => exact Or.inr (Option.some.inj h).symm
  | titleTag s => exact Or.inr (Option.some.inj h).symm
  | h1Tag s => exact Or.inr (Option.some.inj h).symm

theorem ex_fix_donut {α : Type} (ex : Frag → Option α)
    (hchart : ∀ v r, ex (.chartValues v r) = none)
    {f f' : Frag} (h : fix_donut f = some f') : ex f' = ex f := by
  rcases fix_donut_chartValues h with ⟨v, r, v', r', rfl, rfl⟩ | rfl
  · rw [hchart, hchart]
  · rfl

theorem ex_annot {α : Type} (ex : Frag → Option α)
    (hchart : ∀ n, ex (.chartText n) = none) (f : Frag) :
    ex (fix_donut_annot f) = ex f := by
  cases f <;> simp only [fix_donut_annot]
  split_ifs <;> simp [hchart]

theorem asEff_replU (u nu : ℚ) (f : Frag) : asEff (replUnmatched u nu f) = asEff f := by
  cases f <;> first | rfl | simp only [replUnmatched]
  split_ifs <;> rfl

theorem asHero_replU (u nu : ℚ) (f : Frag) : asHero (replUnmatched u nu f) = asHero f := by
  cases f <;> first | rfl | simp only [replUnmatched]
  split_ifs <;> rfl

theorem asNarr_replU (u nu : ℚ) (f : Frag) : asNarr (replUnmatched u nu f) = asNarr f := by
  cases f <;> first | rfl | simp only [replUnmatched]
  split_ifs <;> rfl

theorem findGen_formula_replU (u nu : ℚ) :
    ∀ l : Doc, findGen asFormula (l.map (replUnmatched u nu)) =
      (findGen asFormula l).map
        (fun r => (r.1, r.2.1, if r.2.2 = format1 u then format1 nu else r.2.2)) := by
  intro l
  induction l with
  | nil => rfl
  | cons f t ih =>
    cases f with
    | formulaBar e b x =>
      simp only [List.map_cons, findGen, replUnmatched]
      split_ifs with h <;> simp [asFormula, h]
    | text s => simp only [List.map_cons, findGen, replUnmatched, asFormula]; exact ih
    | effEq a tc col c => simp only [List.map_cons, findGen, replUnmatched, asFormula]; exact ih
    | heroCard col v => simp only [List.map_cons, findGen, replUnmatched, asFormula]; exact ih
    | narrative p q => simp only [List.map_cons, findGen, replUnmatched, asFormula]; exact ih
    | chartValues v r => simp only [List.map_cons, findGen, replUnmatched, asFormula]; exact ih
    | chartText n => simp only [List.map_cons, findGen, replUnmatched, asFormula]; exact ih
    | titleTag s => simp only [List.map_cons, findGen, replUnmatched, asFormula]; exact ih
    | h1Tag s => simp only [List.map_cons, findGen, replUnmatched, asFormula]; exact ih

theorem findGen_update {α : Type} (ex : Frag → Option α)
    (hinj : ∀ f r, ex f = some r → ∀ m, ex m = some r → f = m)
    {l : Doc} {r₀ : α} {m nf : Frag} (hm : ex m = some r₀) {r₁ : α} (hnf : ex nf = some r₁)
    (hfind : findGen ex l = some r₀) :
    findGen ex (l.map (replaceEq m nf)) = some r₁ := by
  induction l with
  | nil => exact absurd hfind (by simp [findGen])
  | cons f t ih =>
    rw [findGen] at hfind
    rcases hex : ex f with _ | r <;> rw [hex] at hfind
    · have hfm : ¬(f = m) := by
        intro hc
        rw [hc, hm] at hex
        exact absurd hex (by simp)
      simp only [List.map_cons, findGen, replaceEq, if_neg hfm, hex]
      exact ih hfind
    · have hr : r = r₀ := Option.some.inj hfind
      have hfm : f = m := hinj f r hex m (by rw [hr]; exact hm)
      simp only [List.map_cons, findGen, replaceEq, if_pos hfm, hnf]

/-!
## Step equations and destructors
-/

theorem effStep_eq_none {e : ℚ} {l : Doc} (h : findGen asEff l = none) :
    effStep e l = some l := by
  simp only [effStep, h]

theorem effStep_eq_some {e : ℚ} {l : Doc} {aT tT col cT : Str} {cq t : ℚ}
    (hf : findGen asEff l = some (aT, tT, col, cT))
    (hc : pyFloat cT = some cq) (ht : pyFloat tT = some t) :
    effStep e l = some (l.map (replaceEq (.effEq aT tT col cT)
      (if cT = format1 cq then .effEq aT tT col (format1 (newEffQ e t))
       else .effEq aT tT col cT))) := by
  simp only [effStep, hf, hc, ht]

theorem effStep_cases {e : ℚ} {l l' : Doc} (h : effStep e l = some l') :
    (findGen asEff l = none ∧ l' = l) ∨
    (∃ aT tT col cT cq t, findGen asEff l = some (aT, tT, col, cT) ∧
      pyFloat cT = some cq ∧ pyFloat tT = some t ∧
      l' = l.map (replaceEq (.effEq aT tT col cT)
        (if cT = format1 cq then .effEq aT tT col (format1 (newEffQ e t))
         else .effEq aT tT col cT))) := by
  rcases hf : findGen asEff l with _ | ⟨aT, tT, col, cT⟩
  · rw [effStep_eq_none hf] at h
    exact Or.inl ⟨rfl, (Option.some.inj h).symm⟩
  · rcases hc : pyFloat cT with _ | cq
    · simp only [effStep, hf, hc] at h
      exact absurd h (by simp)
    · rcases ht : pyFloat tT with _ | t
      · simp only [effStep, hf, hc, ht] at h
        exact absurd h (by simp)
      · rw [effStep_eq_some hf hc ht] at h
        exact Or.inr ⟨aT, tT, col, cT, cq, t, rfl, hc, ht, (Option.some.inj h).symm⟩

theorem heroStep_eq_none {l : Doc} (h : findGen asHero l = none) : heroStep l = some l := by
  simp only [heroStep, h]

theorem heroStep_eq_big {l : Doc} {col vT : Str} {v : ℚ}
    (hf : findGen asHero l = some (col, vT)) (hv : pyFloat vT = some v) (h100 : 100 < v) :
    heroStep l = some (l.map (replaceEq (.heroCard col vT)
      (.heroCard col (format1 (min v 100))))) := by
  simp only [heroStep, hf, hv, if_pos h100]

theorem heroStep_eq_small {l : Doc} {col vT : Str} {v : ℚ}
    (hf : findGen asHero l = some (col, vT)) (hv : pyFloat vT = some v) (h100 : ¬100 < v) :
    heroStep l = some l := by
  simp only [heroStep, hf, hv, if_neg h100]

theorem heroStep_cases {l l' : Doc} (h : heroStep l = some l') :
    (findGen asHero l = none ∧ l' = l) ∨
    (∃ col vT v, findGen asHero l = some (col, vT) ∧ pyFloat vT = some v ∧
      ((100 < v ∧ l' = l.map (replaceEq (.heroCard col vT)
          (.heroCard col (format1 (min v 100))))) ∨
       (¬100 < v ∧ l' = l))) := by
  rcases hf : findGen asHero l with _ | ⟨col, vT⟩
  · rw [heroStep_eq_none hf] at h
    exact Or.inl ⟨rfl, (Option.some.inj h).symm⟩
  · rcases hv : pyFloat vT with _ | v
    · simp only [heroStep, hf, hv] at h
      exact absurd h (by simp)
    · by_cases h100 : 100 < v
      · rw [heroStep_eq_big hf hv h100] at h
        exact Or.inr ⟨col, vT, v, rfl, hv, Or.inl ⟨h100, (Option.some.inj h).symm⟩⟩
      · rw [heroStep_eq_small hf hv h100] at h
        exact Or.inr ⟨col, vT, v, rfl, hv, Or.inr ⟨h100, (Option.some.inj h).symm⟩⟩

theorem narrStep_eq_none {l : Doc} (h : findGen asNarr l = none) : narrStep l = some l := by
  simp only [narrStep, h]

theorem narrStep_eq_big {l : Doc} {p qT : Str} {q : ℚ}
    (hf : findGen asNarr l = some (p, qT)) (hq : pyFloat qT = some q) (h100 : 100 < q) :
    narrStep l = some (l.map (replaceEq (.narrative p qT)
      (.narrative p (format1 (min q 100))))) := by
  simp only [narrStep, hf, hq, if_pos h100]

theorem narrStep_eq_small {l : Doc} {p qT : Str} {q : ℚ}
    (hf : findGen asNarr l = some (p, qT)) (hq : pyFloat qT = some q) (h100 : ¬100 < q) :
    narrStep l = some l := by
  simp only [narrStep, hf, hq, if_neg h100]

theorem narrStep_cases {l l' : Doc} (h : narrStep l = some l') :
    (findGen asNarr l = none ∧ l' = l) ∨
    (∃ p qT q, findGen asNarr l = some (p, qT) ∧ pyFloat qT = some q ∧
      ((100 < q ∧ l' = l.map (replaceEq (.narrative p qT)
          (.narrative p (format1 (min q 100))))) ∨
       (¬100 < q ∧ l' = l))) := by
  rcases hf : findGen asNarr l with _ | ⟨p, qT⟩
  · rw [narrStep_eq_none hf] at h
    exact Or.inl ⟨rfl, (Option.some.inj h).symm⟩
  · rcases hq : pyFloat qT with _ | q
    · simp only [narrStep, hf, hq] at h
      exact absurd h (by simp)
    · by_cases h100 : 100 < q
      · rw [narrStep_eq_big hf hq h100] at h
        exact Or.inr ⟨p, qT, q, rfl, hq, Or.inl ⟨h100, (Option.some.inj h).symm⟩⟩
      · rw [narrStep_eq_small hf hq h100] at h
        exact Or.inr ⟨p, qT, q, rfl, hq, Or.inr ⟨h100, (Option.some.inj h).symm⟩⟩

theorem patchSteps_eq {e b u : ℚ} {doc d2 d3 d4 d5 : Doc}
    (h2 : effStep e (doc.map (replUnmatched u (newUnmatchedQ e b))) = some d2)
    (h3 : heroStep d2 = some d3) (h4 : narrStep d3 = some d4)
    (h5 : optMapM fix_donut d4 = some d5) :
    patchSteps e b u doc = some (d5.map fix_donut_annot) := by
  simp only [patchSteps, h2, h3, h4, h5]

theorem patchSteps_some {e b u : ℚ} {doc d' : Doc} (h : patchSteps e b u doc = some d') :
    ∃ d2 d3 d4 d5,
      effStep e (doc.map (replUnmatched u (newUnmatchedQ e b))) = some d2 ∧
      heroStep d2 = some d3 ∧ narrStep d3 = some d4 ∧
      optMapM fix_donut d4 = some d5 ∧ d' = d5.map fix_donut_annot := by
  rw [patchSteps] at h
  rcases h2 : effStep e (doc.map (replUnmatched u (newUnmatchedQ e b))) with _ | d2 <;>
    simp only [h2] at h
  · exact absurd h (by simp)
  · rcases h3 : heroStep d2 with _ | d3 <;> simp only [h3] at h
    · exact absurd h (by simp)
    · rcases h4 : narrStep d3 with _ | d4 <;> simp only [h4] at h
      · exact absurd h (by simp)
      · rcases h5 : optMapM fix_donut d4 with _ | d5 <;> simp only [h5] at h
        · exact absurd h (by simp)
        · exact ⟨d2, d3, d4, d5, rfl, h3, h4, h5, (Option.some.inj h).symm⟩

theorem patch_report_eq_no_formula {doc : Doc} (h : findGen asFormula doc = none) :
    patch_report doc = some doc := by
  simp only [patch_report, h]

theorem patch_report_eq_guard {doc : Doc} {eT bT uT : Str} {e b u : ℚ}
    (hf : findGen asFormula doc = some (eT, bT, uT))
    (he : pyFloat eT = some e) (hb : pyFloat bT = some b) (hu : pyFloat uT = some u)
    (hg : |e + b + u - 100| < 1/2) : patch_report doc = some doc := by
  simp only [patch_report, hf, he, hb, hu, if_pos hg]

theorem patch_report_eq_main {doc : Doc} {eT bT uT : Str} {e b u : ℚ}
    (hf : findGen asFormula doc = some (eT, bT, uT))
    (he : pyFloat eT = some e) (hb : pyFloat bT = some b) (hu : pyFloat uT = some u)
    (hg : ¬|e + b + u - 100| < 1/2) : patch_report doc = patchSteps e b u doc := by
  simp only [patch_report, hf, he, hb, hu, if_neg hg]

theorem patch_report_cases {doc d' : Doc} (h : patch_report doc = some d') :
    (findGen asFormula doc = none ∧ d' = doc) ∨
    (∃ eT bT uT e b u, findGen asFormula doc = some (eT, bT, uT) ∧
      pyFloat eT = some e ∧ pyFloat bT = some b ∧ pyFloat uT = some u ∧
      ((|e + b + u - 100| < 1/2 ∧ d' = doc) ∨
       (¬|e + b + u - 100| < 1/2 ∧ patchSteps e b u doc = some d'))) := by
  rcases hf : findGen asFormula doc with _ | ⟨eT, bT, uT⟩
  · rw [patch_report_eq_no_formula hf] at h
    exact Or.inl ⟨rfl, (Option.some.inj h).symm⟩
  · rcases he : pyFloat eT with _ | e
    · simp only [patch_report, hf, he] at h
      exact absurd h (by simp)
    · rcases hb : pyFloat bT with _ | b
      · simp only [patch_report, hf, he, hb] at h
        exact absurd h (by simp)
      · rcases hu : pyFloat uT with _ | u
        · simp only [patch_report, hf, he, hb, hu] at h
          exact absurd h (by simp)
        · by_cases hg : |e + b + u - 100| < 1/2
          · rw [patch_report_eq_guard hf he hb hu hg] at h
            exact Or.inr ⟨eT, bT, uT, e, b, u, rfl, he, hb, hu,
              Or.inl ⟨hg, (Option.some.inj h).symm⟩⟩
          · rw [patch_report_eq_main hf he hb hu hg] at h
            exact Or.inr ⟨eT, bT, uT, e, b, u, rfl, he, hb, hu, Or.inr ⟨hg, h⟩⟩

/-!
## Pointwise idempotence of the rewrite callbacks
-/

theorem replU_comp {u nu u₂ : ℚ} (hcase : u₂ = u ∨ format1 u₂ = format1 nu) (f : Frag) :
    replUnmatched u₂ nu (replUnmatched u nu f) = replUnmatched u nu f := by
  cases f <;> first | rfl | simp only [replUnmatched]
  case formulaBar e b x =>
    by_cases h₁ : x = format1 u
    · rw [if_pos h₁]
      simp only [replUnmatched]
      split_ifs <;> rfl
    · rw [if_neg h₁]
      simp only [replUnmatched]
      rcases hcase with rfl | hc
      · rw [if_neg h₁]
      · by_cases h₂ : x = format1 u₂
        · rw [if_pos h₂, h₂, hc]
        · rw [if_neg h₂]

theorem fix_donut_idem {f f' : Frag} (h : fix_donut f = some f') : fix_donut f' = some f' := by
  cases f with
  | chartValues v r =>
    simp only [fix_donut] at h
    split_ifs at h with h₁
    · rcases hp : pyFloat v with _ | q <;> rw [hp] at h
      · exact absurd h (by simp)
      · have hval := Option.some.inj h
        split_ifs at hval with h₂
        · rw [← hval]
          with_unfolding_all rfl
        · rw [← hval]
          simp only [fix_donut, h₁, if_true, hp, if_neg h₂]
    · have hval := Option.some.inj h
      rw [← hval]
      simp only [fix_donut]
      rw [if_neg h₁]
  | text s => rw [← Option.some.inj h]; rfl
  | formulaBar e b u => rw [← Option.some.inj h]; rfl
  | effEq a t col c => rw [← Option.some.inj h]; rfl
  | heroCard col v => rw [← Option.some.inj h]; rfl
  | narrative p q => rw [← Option.some.inj h]; rfl
  | chartText n => rw [← Option.some.inj h]; rfl
  | titleTag s => rw [← Option.some.inj h]; rfl
  | h1Tag s => rw [← Option.some.inj h]; rfl

theorem annot_idem (f : Frag) :
    fix_donut_annot (fix_donut_annot f) = fix_donut_annot f := by
  cases f <;> simp only [fix_donut_annot]
  split_ifs with h
  · simp [fix_donut_annot]
  · simp [fix_donut_annot, h]

/-!
## Membership tracing through the rewrite passes
-/

theorem mem_back_replaceEq {α : Type} (ex : Frag → Option α) {m nf : Frag}
    (hnf : ex nf = none) {l : Doc} {f : Frag}
    (hf : f ∈ l.map (replaceEq m nf)) (hex : ¬(ex f = none)) : f ∈ l := by
  obtain ⟨g, hg, hgf⟩ := List.mem_map.1 hf
  rw [replaceEq] at hgf
  split_ifs at hgf with h
  · rw [← hgf] at hex
    exact absurd hnf hex
  · rw [← hgf]
    exact hg

theorem mem_back_annot {α : Type} (ex : Frag → Option α)
    (hchart : ∀ n, ex (.chartText n) = none) {l : Doc} {f : Frag}
    (hf : f ∈ l.map fix_donut_annot) (hex : ¬(ex f = none)) : f ∈ l := by
  obtain ⟨g, hg, hgf⟩ := List.mem_map.1 hf
  cases g with
  | chartText n =>
    exfalso
    simp only [fix_donut_annot] at hgf
    split_ifs at hgf <;> rw [← hgf] at hex <;> exact absurd (hchart _) hex
  | text s => rw [← hgf]; exact hg
  | formulaBar e b u => rw [← hgf]; exact hg
  | effEq a t col c => rw [← hgf]; exact hg
  | heroCard col v => rw [← hgf]; exact hg
  | narrative p q => rw [← hgf]; exact hg
  | chartValues v r => rw [← hgf]; exact hg
  | titleTag s => rw [← hgf]; exact hg
  | h1Tag s => rw [← hgf]; exact hg

theorem mem_back_donut {α : Type} (ex : Frag → Option α)
    (hchart : ∀ v r, ex (.chartValues v r) = none) {l l' : Doc} {f : Frag}
    (h : optMapM fix_donut l = some l') (hf : f ∈ l') (hex : ¬(ex f = none)) : f ∈ l := by
  obtain ⟨g, hg, hgf⟩ := optMapM_mem h f hf
  rcases fix_donut_chartValues hgf with ⟨v, r, v', r', rfl, rfl⟩ | rfl
  · exact absurd (hchart v' r') hex
  · exact hg

/-!
## Search preservation through the rewrite passes
-/

theorem effStep_find {α : Type} (ex : Frag → Option α)
    (hx : ∀ a t col c, ex (.effEq a t col c) = none)
    {e : ℚ} {l l' : Doc} (h : effStep e l = some l') : findGen ex l' = findGen ex l := by
  rcases effStep_cases h with ⟨-, rfl⟩ | ⟨aT, tT, col, cT, cq, t, -, -, -, rfl⟩
  · rfl
  · exact findGen_map_eq ex _
      (ex_replaceEq ex (hx _ _ _ _) (by split_ifs <;> exact hx _ _ _ _)) l

theorem heroStep_find {α : Type} (ex : Frag → Option α)
    (hx : ∀ col v, ex (.heroCard col v) = none)
    {l l' : Doc} (h : heroStep l = some l') : findGen ex l' = findGen ex l := by
  rcases heroStep_cases h with ⟨-, rfl⟩ | ⟨col, vT, v, -, -, ⟨-, rfl⟩ | ⟨-, rfl⟩⟩
  · rfl
  · exact findGen_map_eq ex _ (ex_replaceEq ex (hx _ _) (hx _ _)) l
  · rfl

theorem narrStep_find {α : Type} (ex : Frag → Option α)
    (hx : ∀ p q, ex (.narrative p q) = none)
    {l l' : Doc} (h : narrStep l = some l') : findGen ex l' = findGen ex l := by
  rcases narrStep_cases h with ⟨-, rfl⟩ | ⟨p, qT, q, -, -, ⟨-, rfl⟩ | ⟨-, rfl⟩⟩
  · rfl
  · exact findGen_map_eq ex _ (ex_replaceEq ex (hx _ _) (hx _ _)) l
  · rfl

theorem donut_find {α : Type} (ex : Frag → Option α)
    (hchart : ∀ v r, ex (.chartValues v r) = none)
    {l l' : Doc} (h : optMapM fix_donut l = some l') : findGen ex l' = findGen ex l :=
  findGen_optMapM_eq ex fix_donut (fun _ _ hf => ex_fix_donut ex hchart hf) l l' h

theorem annot_find {α : Type} (ex : Frag → Option α)
    (hchart : ∀ n, ex (.chartText n) = none) (l : Doc) :
    findGen ex (l.map fix_donut_annot) = findGen ex l :=
  findGen_map_eq ex _ (ex_annot ex hchart) l

theorem effStep_mem_back {α : Type} (ex : Frag → Option α)
    (hx : ∀ a t col c, ex (.effEq a t col c) = none)
    {e : ℚ} {l l' : Doc} {f : Frag} (h : effStep e l = some l')
    (hf : f ∈ l') (hex : ¬(ex f = none)) : f ∈ l := by
  rcases effStep_cases h with ⟨-, rfl⟩ | ⟨aT, tT, col, cT, cq, t, -, -, -, rfl⟩
  · exact hf
  · exact mem_back_replaceEq ex (by split_ifs <;> exact hx _ _ _ _) hf hex

theorem heroStep_mem_back {α : Type} (ex : Frag → Option α)
    (hx : ∀ col v, ex (.heroCard col v) = none)
    {l l' : Doc} {f : Frag} (h : heroStep l = some l')
    (hf : f ∈ l') (hex : ¬(ex f = none)) : f ∈ l := by
  rcases heroStep_cases h with ⟨-, rfl⟩ | ⟨col, vT, v, -, -, ⟨-, rfl⟩ | ⟨-, rfl⟩⟩
  · exact hf
  · exact mem_back_replaceEq ex (hx _ _) hf hex
  · exact hf

theorem narrStep_mem_back {α : Type} (ex : Frag → Option α)
    (hx : ∀ p q, ex (.narrative p q) = none)
    {l l' : Doc} {f : Frag} (h : narrStep l = some l')
    (hf : f ∈ l') (hex : ¬(ex f = none)) : f ∈ l := by
  rcases narrStep_cases h with ⟨-, rfl⟩ | ⟨p, qT, q, -, -, ⟨-, rfl⟩ | ⟨-, rfl⟩⟩
  · exact hf
  · exact mem_back_replaceEq ex (hx _ _) hf hex
  · exact hf

theorem replU_eq_self_of_not_formula {f : Frag} (h : asFormula f = none) (x y : ℚ) :
    replUnmatched x y f = f := by
  cases f <;> simp [asFormula] at h ⊢ <;> rfl

theorem fix_donut_of_mem_annot {l : Doc} {f : Frag}
    (hf : f ∈ l.map fix_donut_annot) (hall : ∀ g ∈ l, fix_donut g = some g) :
    fix_donut f = some f := by
  obtain ⟨g, hg, hgf⟩ := List.mem_map.1 hf
  cases g with
  | chartText n =>
    rw [← hgf]
    simp only [fix_donut_annot]
    split_ifs <;> rfl
  | text s => rw [← hgf]; exact hall _ hg
  | formulaBar e b u => rw [← hgf]; exact hall _ hg
  | effEq a t col c => rw [← hgf]; exact hall _ hg
  | heroCard col v => rw [← hgf]; exact hall _ hg
  | narrative p q => rw [← hgf]; exact hall _ hg
  | chartValues v r => rw [← hgf]; exact hall _ hg
  | titleTag s => rw [← hgf]; exact hall _ hg
  | h1Tag s => rw [← hgf]; exact hall _ hg

theorem annot_map_self {l : Doc} {f : Frag} (hf : f ∈ l.map fix_donut_annot) :
    fix_donut_annot f = f := by
  obtain ⟨g, hg, hgf⟩ := List.mem_map.1 hf
  rw [← hgf]
  exact annot_idem g

theorem asEff_inj : ∀ (f : Frag) (r : Str × Str × Str × Str), asEff f = some r →
    ∀ m, asEff m = some r → f = m := by
  intro f r hf m hm
  obtain ⟨a, t, col, c⟩ := r
  rw [asEff_eq_some] at hf hm
  rw [hf, hm]

theorem asHero_inj : ∀ (f : Frag) (r : Str × Str), asHero f = some r →
    ∀ m, asHero m = some r → f = m := by
  intro f r hf m hm
  obtain ⟨col, v⟩ := r
  rw [asHero_eq_some] at hf hm
  rw [hf, hm]

theorem asNarr_inj : ∀ (f : Frag) (r : Str × Str), asNarr f = some r →
    ∀ m, asNarr m = some r → f = m := by
  intro f r hf m hm
  obtain ⟨p, q⟩ := r
  rw [asNarr_eq_some] at hf hm
  rw [hf, hm]

/-- A document produced by the five rewrite passes of `patch_report` is a
fixed point of `patch_report`: the second application either takes the
already-correct guard on the rewritten formula values or runs every pass as
a no-op. -/
theorem patch_pipeline_stable {doc d2 d3 d4 d5 : Doc} {eT bT uT : Str} {e b u : ℚ}
    (hf : findGen asFormula doc = some (eT, bT, uT))
    (he : pyFloat eT = some e) (hb : pyFloat bT = some b) (hu : pyFloat uT = some u)
    (h2 : effStep e (doc.map (replUnmatched u (newUnmatchedQ e b))) = some d2)
    (h3 : heroStep d2 = some d3) (h4 : narrStep d3 = some d4)
    (h5 : optMapM fix_donut d4 = some d5) :
    patch_report (d5.map fix_donut_annot) = some (d5.map fix_donut_annot) := by
  have hFd6 : findGen asFormula (d5.map fix_donut_annot) =
      some (eT, bT, if uT = format1 u then format1 (newUnmatchedQ e b) else uT) := by
    rw [annot_find asFormula (fun _ => rfl), donut_find asFormula (fun _ _ => rfl) h5,
      narrStep_find asFormula (fun _ _ => rfl) h4, heroStep_find asFormula (fun _ _ => rfl) h3,
      effStep_find asFormula (fun _ _ _ _ => rfl) h2, findGen_formula_replU, hf]
    rfl
  obtain ⟨u₂, hu₂p, hcase⟩ :
      ∃ u₂, pyFloat (if uT = format1 u then format1 (newUnmatchedQ e b) else uT) = some u₂ ∧
        (u₂ = u ∨ format1 u₂ = format1 (newUnmatchedQ e b)) := by
    by_cases hh : uT = format1 u
    · refine ⟨newUnmatchedQ e b, ?_, Or.inr rfl⟩
      rw [if_pos hh]
      exact pyFloat_format1 _ (newUnmatchedQ_nonneg e b) (newUnmatchedQ_OneDec e b)
    · refine ⟨u, ?_, Or.inl rfl⟩
      rw [if_neg hh]
      exact hu
  have hDonutSelf : ∀ g ∈ d5, fix_donut g = some g := by
    intro g hg
    obtain ⟨f₄, -, hfd⟩ := optMapM_mem h5 g hg
    exact fix_donut_idem hfd
  have hAnnotSelf : ∀ f ∈ d5.map fix_donut_annot, fix_donut_annot f = f :=
    fun f hf' => annot_map_self hf'
  have hDonut6 : ∀ f ∈ d5.map fix_donut_annot, fix_donut f = some f :=
    fun f hf' => fix_donut_of_mem_annot hf' hDonutSelf
  have hFormulaTrace : ∀ f ∈ d5.map fix_donut_annot, ¬(asFormula f = none) →
      ∃ f₀, f = replUnmatched u (newUnmatchedQ e b) f₀ := by
    intro f hf' hex
    have hf5 : f ∈ d5 := mem_back_annot asFormula (fun _ => rfl) hf' hex
    have hf4 : f ∈ d4 := mem_back_donut asFormula (fun _ _ => rfl) h5 hf5 hex
    have hf3 : f ∈ d3 := narrStep_mem_back asFormula (fun _ _ => rfl) h4 hf4 hex
    have hf2 : f ∈ d2 := heroStep_mem_back asFormula (fun _ _ => rfl) h3 hf3 hex
    have hf1 : f ∈ doc.map (replUnmatched u (newUnmatchedQ e b)) :=
      effStep_mem_back asFormula (fun _ _ _ _ => rfl) h2 hf2 hex
    obtain ⟨f₀, -, hf₀⟩ := List.mem_map.1 hf1
    exact ⟨f₀, hf₀.symm⟩
  have hd1₂ : (d5.map fix_donut_annot).map (replUnmatched u₂ (newUnmatchedQ e b)) =
      d5.map fix_donut_annot := by
    apply map_eq_self
    intro f hf'
    by_cases hex : asFormula f = none
    · exact replU_eq_self_of_not_formula hex _ _
    · obtain ⟨f₀, rfl⟩ := hFormulaTrace f hf' hex
      exact replU_comp hcase f₀
  have heff₂ : effStep e (d5.map fix_donut_annot) = some (d5.map fix_donut_annot) := by
    rcases effStep_cases h2 with ⟨hnone, hd2⟩ | ⟨aT, tT, col, cT, cq, t, hfind, hc, ht, hd2⟩
    · apply effStep_eq_none
      rw [annot_find asEff (fun _ => rfl), donut_find asEff (fun _ _ => rfl) h5,
        narrStep_find asEff (fun _ _ => rfl) h4, heroStep_find asEff (fun _ _ => rfl) h3, hd2]
      exact hnone
    · by_cases hcanon : cT = format1 cq
      · have hF6 : findGen asEff (d5.map fix_donut_annot) =
            some (aT, tT, col, format1 (newEffQ e t)) := by
          rw [annot_find asEff (fun _ => rfl), donut_find asEff (fun _ _ => rfl) h5,
            narrStep_find asEff (fun _ _ => rfl) h4, heroStep_find asEff (fun _ _ => rfl) h3,
            hd2, if_pos hcanon]
          refine findGen_update asEff asEff_inj ?_ ?_ hfind <;> rfl
        have hpc : pyFloat (format1 (newEffQ e t)) = some (newEffQ e t) :=
          pyFloat_format1 _ (newEffQ_nonneg (pyFloat_nonneg he)) (newEffQ_OneDec e t)
        rw [effStep_eq_some hF6 hpc ht, if_pos rfl]
        congr 1
        exact map_eq_self (fun f _ => replaceEq_self _ f)
      · have hd2' : d2 = doc.map (replUnmatched u (newUnmatchedQ e b)) := by
          rw [hd2, if_neg hcanon]
          exact map_eq_self (fun f _ => replaceEq_self _ f)
        have hF6 : findGen asEff (d5.map fix_donut_annot) = some (aT, tT, col, cT) := by
          rw [annot_find asEff (fun _ => rfl), donut_find asEff (fun _ _ => rfl) h5,
            narrStep_find asEff (fun _ _ => rfl) h4, heroStep_find asEff (fun _ _ => rfl) h3,
            hd2']
          exact hfind
        rw [effStep_eq_some hF6 hc ht, if_neg hcanon]
        congr 1
        exact map_eq_self (fun f _ => replaceEq_self _ f)
  have hhero₂ : heroStep (d5.map fix_donut_annot) = some (d5.map fix_donut_annot) := by
    rcases heroStep_cases h3 with ⟨hnone, hd3⟩ | ⟨col, vT, v, hfind, hv, hbr⟩
    · apply heroStep_eq_none
      rw [annot_find asHero (fun _ => rfl), donut_find asHero (fun _ _ => rfl) h5,
        narrStep_find asHero (fun _ _ => rfl) h4, hd3]
      exact hnone
    · rcases hbr with ⟨h100, hd3⟩ | ⟨h100, hd3⟩
      · have hmin : min v 100 = 100 := min_eq_right (le_of_lt h100)
        have hF6 : findGen asHero (d5.map fix_donut_annot) =
            some (col, format1 (min v 100)) := by
          rw [annot_find asHero (fun _ => rfl), donut_find asHero (fun _ _ => rfl) h5,
            narrStep_find asHero (fun _ _ => rfl) h4, hd3]
          refine findGen_update asHero asHero_inj ?_ ?_ hfind <;> rfl
        have hpv : pyFloat (format1 (min v 100)) = some 100 := by
          rw [hmin]
          exact pyFloat_format1 100 (by norm_num) ⟨1000, by norm_num⟩
        exact heroStep_eq_small hF6 hpv (by norm_num)
      · have hF6 : findGen asHero (d5.map fix_donut_annot) = some (col, vT) := by
          rw [annot_find asHero (fun _ => rfl), donut_find asHero (fun _ _ => rfl) h5,
            narrStep_find asHero (fun _ _ => rfl) h4, hd3]
          exact hfind
        exact heroStep_eq_small hF6 hv h100
  have hnarr₂ : narrStep (d5.map fix_donut_annot) = some (d5.map fix_donut_annot) := by
    rcases narrStep_cases h4 with ⟨hnone, hd4⟩ | ⟨p, qT, q, hfind, hq, hbr⟩
    · apply narrStep_eq_none
      rw [annot_find asNarr (fun _ => rfl), donut_find asNarr (fun _ _ => rfl) h5, hd4]
      exact hnone
    · rcases hbr with ⟨h100, hd4⟩ | ⟨h100, hd4⟩
      · have hmin : min q 100 = 100 := min_eq_right (le_of_lt h100)
        have hF6 : findGen asNarr (d5.map fix_donut_annot) =
            some (p, format1 (min q 100)) := by
          rw [annot_find asNarr (fun _ => rfl), donut_find asNarr (fun _ _ => rfl) h5, hd4]
          refine findGen_update asNarr asNarr_inj ?_ ?_ hfind <;> rfl
        have hpq : pyFloat (format1 (min q 100)) = some 100 := by
          rw [hmin]
          exact pyFloat_format1 100 (by norm_num) ⟨1000, by norm_num⟩
        exact narrStep_eq_small hF6 hpq (by norm_num)
      · have hF6 : findGen asNarr (d5.map fix_donut_annot) = some (p, qT) := by
          rw [annot_find asNarr (fun _ => rfl), donut_find asNarr (fun _ _ => rfl) h5, hd4]
          exact hfind
        exact narrStep_eq_small hF6 hq h100
  have hdonut₂ : optMapM fix_donut (d5.map fix_donut_annot) =
      some (d5.map fix_donut_annot) := optMapM_pure hDonut6
  have hannot₂ : (d5.map fix_donut_annot).map fix_donut_annot =
      d5.map fix_donut_annot := map_eq_self hAnnotSelf
  by_cases hg₂ : |e + b + u₂ - 100| < 1/2
  · exact patch_report_eq_guard hFd6 he hb hu₂p hg₂
  · rw [patch_report_eq_main hFd6 he hb hu₂p hg₂]
    rw [patchSteps_eq (by rw [hd1₂]; exact heff₂) hhero₂ hnarr₂ hdonut₂, hannot₂]

/-!
## Totality under well-formed numerals
-/

theorem findGen_mem {α : Type} (ex : Frag → Option α) :
    ∀ {l : Doc} {r : α}, findGen ex l = some r → ∃ f ∈ l, ex f = some r := by
  intro l
  induction l with
  | nil => intro r h; exact absurd h (by simp [findGen])
  | cons f t ih =>
    intro r h
    rw [findGen] at h
    rcases hex : ex f with _ | r' <;> rw [hex] at h
    · obtain ⟨g, hg, hgx⟩ := ih h
      exact ⟨g, by simp [hg], hgx⟩
    · exact ⟨f, by simp, by rw [hex]; exact h⟩

theorem fragWF_replU {u nu : ℚ} {f : Frag} (h : fragWF f = true) :
    fragWF (replUnmatched u nu f) = true := by
  cases f <;> simp only [replUnmatched] <;> try exact h
  split_ifs with h₁
  · simp only [fragWF, Bool.and_eq_true] at h ⊢
    exact ⟨h.1, by rw [pyFloat_format1_isSome]⟩
  · exact h

theorem fragWF_replaceEq {m nf f : Frag} (hnf : fragWF nf = true) (h : fragWF f = true) :
    fragWF (replaceEq m nf f) = true := by
  rw [replaceEq]
  split_ifs
  · exact hnf
  · exact h

theorem effStep_WF (e : ℚ) {l : Doc} (hwf : ∀ f ∈ l, fragWF f = true) :
    ∃ l', effStep e l = some l' ∧ ∀ f ∈ l', fragWF f = true := by
  rcases hfe : findGen asEff l with _ | ⟨aT, tT, col, cT⟩
  · exact ⟨l, effStep_eq_none hfe, hwf⟩
  · obtain ⟨g, hg, hgx⟩ := findGen_mem asEff hfe
    rw [asEff_eq_some] at hgx
    have hwfg := hwf g hg
    rw [hgx] at hwfg
    simp only [fragWF, Bool.and_eq_true, Option.isSome_iff_exists] at hwfg
    obtain ⟨⟨t, ht⟩, c, hc⟩ := hwfg
    refine ⟨_, effStep_eq_some hfe hc ht, ?_⟩
    intro f hf
    obtain ⟨f₀, hf₀, rfl⟩ := List.mem_map.1 hf
    apply fragWF_replaceEq _ (hwf f₀ hf₀)
    split_ifs
    · simp only [fragWF, Bool.and_eq_true, Option.isSome_iff_exists]
      exact ⟨⟨t, ht⟩, _, pyFloat_format1_eval _⟩
    · simp only [fragWF, Bool.and_eq_true, Option.isSome_iff_exists]
      exact ⟨⟨t, ht⟩, c, hc⟩

theorem heroStep_WF {l : Doc} (hwf : ∀ f ∈ l, fragWF f = true) :
    ∃ l', heroStep l = some l' ∧ ∀ f ∈ l', fragWF f = true := by
  rcases hfe : findGen asHero l with _ | ⟨col, vT⟩
  · exact ⟨l, heroStep_eq_none hfe, hwf⟩
  · obtain ⟨g, hg, hgx⟩ := findGen_mem asHero hfe
    rw [asHero_eq_some] at hgx
    have hwfg := hwf g hg
    rw [hgx] at hwfg
    simp only [fragWF, Option.isSome_iff_exists] at hwfg
    obtain ⟨v, hv⟩ := hwfg
    by_cases h100 : 100 < v
    · refine ⟨_, heroStep_eq_big hfe hv h100, ?_⟩
      intro f hf
      obtain ⟨f₀, hf₀, rfl⟩ := List.mem_map.1 hf
      apply fragWF_replaceEq _ (hwf f₀ hf₀)
      simp only [fragWF, Option.isSome_iff_exists]
      exact ⟨_, pyFloat_format1_eval _⟩
    · exact ⟨l, heroStep_eq_small hfe hv h100, hwf⟩

theorem narrStep_WF {l : Doc} (hwf : ∀ f ∈ l, fragWF f = true) :
    ∃ l', narrStep l = some l' ∧ ∀ f ∈ l', fragWF f = true := by
  rcases hfe : findGen asNarr l with _ | ⟨p, qT⟩
  · exact ⟨l, narrStep_eq_none hfe, hwf⟩
  · obtain ⟨g, hg, hgx⟩ := findGen_mem asNarr hfe
    rw [asNarr_eq_some] at hgx
    have hwfg := hwf g hg
    rw [hgx] at hwfg
    simp only [fragWF, Option.isSome_iff_exists] at hwfg
    obtain ⟨q, hq⟩ := hwfg
    by_cases h100 : 100 < q
    · refine ⟨_, narrStep_eq_big hfe hq h100, ?_⟩
      intro f hf
      obtain ⟨f₀, hf₀, rfl⟩ := List.mem_map.1 hf
      apply fragWF_replaceEq _ (hwf f₀ hf₀)
      simp only [fragWF, Option.isSome_iff_exists]
      exact ⟨_, pyFloat_format1_eval _⟩
    · exact ⟨l, narrStep_eq_small hfe hq h100, hwf⟩

theorem fix_donut_WF {f : Frag} (hwf : fragWF f = true) : ∃ f', fix_donut f = some f' := by
  cases f <;> simp only [fix_donut]
  case chartValues v r =>
    split_ifs with h₁
    · simp only [fragWF, h₁, Bool.not_true, Bool.false_or,
        Option.isSome_iff_exists] at hwf
      obtain ⟨q, hq⟩ := hwf
      rw [hq]
      exact ⟨_, rfl⟩
    · exact ⟨_, rfl⟩
  all_goals exact ⟨_, rfl⟩

/-!
## Title strings
-/

theorem take_append_len (a b : Str) : (a ++ b).take a.length = a := by
  induction a with
  | nil => rfl
  | cons x t ih =>
    show x :: (t ++ b).take t.length = x :: t
    rw [ih]

theorem agg_ne_houseTitle (id : Str) : ¬(aggTitleStr = houseTitleStr id) := by
  intro h
  have h33 : aggTitleStr.take 33 = "Dynamic Threshold Report - House ".data := by
    rw [h, houseTitleStr]
    have hl : ("Dynamic Threshold Report - House ".data).length = 33 := by decide
    rw [← hl, take_append_len]
  exact absurd h33 (by decide)

theorem agg_ne_houseH1 (id : Str) : ¬(aggTitleStr = houseH1Str id) := by
  intro h
  have h35 : aggTitleStr.take 35 = "Dynamic Threshold Analysis - House ".data := by
    rw [h, houseH1Str]
    have hl : ("Dynamic Threshold Analysis - House ".data).length = 35 := by decide
    rw [← hl, take_append_len]
  exact absurd h35 (by decide)

theorem houseTitleStr_inj {id id' : Str} (h : houseTitleStr id = houseTitleStr id') :
    id = id' := by
  rw [houseTitleStr, houseTitleStr] at h
  exact List.append_cancel_left h

theorem houseH1Str_inj {id id' : Str} (h : houseH1Str id = houseH1Str id') : id = id' := by
  rw [houseH1Str, houseH1Str] at h
  exact List.append_cancel_left h

/-!
## Filesystem lemmas
-/

theorem lookupFS_writeFS_ne {fs : FS} {n m : Str} (h : ¬(n = m)) (d : Doc) :
    lookupFS (writeFS fs m d) n = lookupFS fs n := by
  induction fs with
  | nil => rfl
  | cons hd t ih =>
    obtain ⟨nm, doc⟩ := hd
    rw [writeFS]
    split_ifs with h₁
    · rw [lookupFS, lookupFS]
      split_ifs with h₂
      · exact absurd (h₂.symm.trans h₁) h
      · rfl
    · rw [lookupFS, lookupFS]
      split_ifs with h₂
      · rfl
      · exact ih

theorem isPerHouse_agg : ∀ a ∈ aggNames, isPerHouse a = false := by
  intro a ha
  rw [aggNames] at ha
  rcases List.mem_cons.1 ha with rfl | ha'
  · decide
  · rcases List.mem_cons.1 ha' with rfl | h'
    · decide
    · exact absurd h' (by simp)

theorem insertSorted_perm (x : Str) : ∀ l, (insertSorted x l).Perm (x :: l) := by
  intro l
  induction l with
  | nil => exact List.Perm.refl _
  | cons y t ih =>
    rw [insertSorted]
    split_ifs with h
    · exact (ih.cons y).trans (List.Perm.swap x y t)
    · exact List.Perm.refl _

theorem sortStr_perm : ∀ l, (sortStr l).Perm l := by
  intro l
  induction l with
  | nil => exact List.Perm.refl _
  | cons x t ih => exact (insertSorted_perm x (sortStr t)).trans (ih.cons x)

theorem goHouses_rel :
    ∀ (names : List Str) (fs₁ fs₂ : FS) (cnt : ℕ),
      names.Nodup →
      (∀ n ∈ names, isPerHouse n = true) →
      (∀ n ∈ names, lookupFS fs₂ n = lookupFS fs₁ n) →
      (∀ a ∈ aggNames, lookupFS fs₂ a = lookupFS fs₁ a) →
      (goHouses true names fs₁ cnt = none ∧ goHouses false names fs₂ cnt = none) ∨
      (∃ fs₂' c, goHouses false names fs₂ cnt = some (fs₂', c) ∧
        goHouses true names fs₁ cnt = some (fs₁, c) ∧
        ∀ a ∈ aggNames, lookupFS fs₂' a = lookupFS fs₁ a) := by
  intro names
  induction names with
  | nil =>
    intro fs₁ fs₂ cnt _ _ _ hagg
    exact Or.inr ⟨fs₂, cnt, rfl, rfl, hagg⟩
  | cons name rest ih =>
    intro fs₁ fs₂ cnt hnd hph hlk hagg
    have hnd' : rest.Nodup := hnd.of_cons
    have hph' : ∀ n ∈ rest, isPerHouse n = true := fun n hn => hph n (by simp [hn])
    have hlk_name : lookupFS fs₂ name = lookupFS fs₁ name := hlk name (by simp)
    rcases ho : lookupFS fs₁ name with _ | original
    · have e₁ : goHouses true (name :: rest) fs₁ cnt = goHouses true rest fs₁ cnt := by
        simp only [goHouses, ho]
      have e₂ : goHouses false (name :: rest) fs₂ cnt = goHouses false rest fs₂ cnt := by
        simp only [goHouses, hlk_name, ho]
      rw [e₁, e₂]
      exact ih fs₁ fs₂ cnt hnd' hph' (fun n hn => hlk n (by simp [hn])) hagg
    · rcases hp1 : (if containsDE original then patch_report original else some original) with
        _ | p1
      · have e₁ : goHouses true (name :: rest) fs₁ cnt = none := by
          simp only [goHouses, ho, hp1]
        have e₂ : goHouses false (name :: rest) fs₂ cnt = none := by
          simp only [goHouses, hlk_name, ho, hp1]
        exact Or.inl ⟨e₁, e₂⟩
      · by_cases heq : rename_titles p1 name = original
        · have e₁ : goHouses true (name :: rest) fs₁ cnt = goHouses true rest fs₁ cnt := by
            simp only [goHouses, ho, hp1, if_pos heq]
          have e₂ : goHouses false (name :: rest) fs₂ cnt = goHouses false rest fs₂ cnt := by
            simp only [goHouses, hlk_name, ho, hp1, if_pos heq]
          rw [e₁, e₂]
          exact ih fs₁ fs₂ cnt hnd' hph' (fun n hn => hlk n (by simp [hn])) hagg
        · have e₁ : goHouses true (name :: rest) fs₁ cnt =
              goHouses true rest fs₁ (cnt + 1) := by
            simp only [goHouses, ho, hp1, if_neg heq, if_true]
          have e₂ : goHouses false (name :: rest) fs₂ cnt =
              goHouses false rest (writeFS fs₂ name (rename_titles p1 name)) (cnt + 1) := by
            simp only [goHouses, hlk_name, ho, hp1, if_neg heq]
            rfl
          rw [e₁, e₂]
          have hname_notin : name ∉ rest := (List.nodup_cons.1 hnd).1
          apply ih fs₁ _ (cnt + 1) hnd' hph'
          · intro n hn
            have hne : ¬(n = name) := fun hc => hname_notin (hc ▸ hn)
            rw [lookupFS_writeFS_ne hne]
            exact hlk n (by simp [hn])
          · intro a ha
            have hne : ¬(a = name) := by
              intro hc
              have h₁ := isPerHouse_agg a ha
              have h₂ := hph name (by simp)
              rw [hc, h₂] at h₁
              exact absurd h₁ (by simp)
            rw [lookupFS_writeFS_ne hne]
            exact hagg a ha

theorem goAggs_rel :
    ∀ (names : List Str) (fs₁ fs₂ : FS) (cnt : ℕ),
      names.Nodup →
      (∀ n ∈ names, lookupFS fs₂ n = lookupFS fs₁ n) →
      (goAggs false names fs₂ cnt).2 = (goAggs true names fs₁ cnt).2 ∧
      (goAggs true names fs₁ cnt).1 = fs₁ := by
  intro names
  induction names with
  | nil => intro fs₁ fs₂ cnt _ _; exact ⟨rfl, rfl⟩
  | cons name rest ih =>
    intro fs₁ fs₂ cnt hnd hlk
    have hnd' : rest.Nodup := hnd.of_cons
    have hlk_name : lookupFS fs₂ name = lookupFS fs₁ name := hlk name (by simp)
    rcases ho : lookupFS fs₁ name with _ | original
    · have e₁ : goAggs true (name :: rest) fs₁ cnt = goAggs true rest fs₁ cnt := by
        simp only [goAggs, ho]
      have e₂ : goAggs false (name :: rest) fs₂ cnt = goAggs false rest fs₂ cnt := by
        simp only [goAggs, hlk_name, ho]
      rw [e₁, e₂]
      exact ih fs₁ fs₂ cnt hnd' (fun n hn => hlk n (by simp [hn]))
    · by_cases heq : rename_titles original name = original
      · have e₁ : goAggs true (name :: rest) fs₁ cnt = goAggs true rest fs₁ cnt := by
          simp only [goAggs, ho, if_pos heq]
        have e₂ : goAggs false (name :: rest) fs₂ cnt = goAggs false rest fs₂ cnt := by
          simp only [goAggs, hlk_name, ho, if_pos heq]
        rw [e₁, e₂]
        exact ih fs₁ fs₂ cnt hnd' (fun n hn => hlk n (by simp [hn]))
      · have e₁ : goAggs true (name :: rest) fs₁ cnt = goAggs true rest fs₁ (cnt + 1) := by
          simp only [goAggs, ho, if_neg heq, if_true]
        have e₂ : goAggs false (name :: rest) fs₂ cnt =
            goAggs false rest (writeFS fs₂ name (rename_titles original name)) (cnt + 1) := by
          simp only [goAggs, hlk_name, ho, if_neg heq]
          rfl
        rw [e₁, e₂]
        have hname_notin : name ∉ rest := (List.nodup_cons.1 hnd).1
        apply ih fs₁ _ (cnt + 1) hnd'
        intro n hn
        have hne : ¬(n = name) := fun hc => hname_notin (hc ▸ hn)
        rw [lookupFS_writeFS_ne hne]
        exact hlk n (by simp [hn])

/-!
## Claims
-/

/-- C1 (counterexample).  In the flooring case the corrected breakdown does
not sum to 100: with Explained 60.0, Background 50.0, Unmatched 0.5 the
formula is found, the sum 110.5 is off by at least 0.5, the corrected
Unmatched value is floored to 0.0, and afterwards 60 + 50 + 0 = 110, not
100. -/
theorem C1_counterexample :
    findGen asFormula [Frag.formulaBar "60.0".data "50.0".data "0.5".data] =
      some ("60.0".data, "50.0".data, "0.5".data) ∧
    pyFloat "60.0".data = some 60 ∧ pyFloat "50.0".data = some 50 ∧
    pyFloat "0.5".data = some (1/2) ∧
    ¬(|(60 : ℚ) + 50 + 1/2 - 100| < 1/2) ∧
    patch_report [Frag.formulaBar "60.0".data "50.0".data "0.5".data] =
      some [Frag.formulaBar "60.0".data "50.0".data "0.0".data] ∧
    newUnmatchedQ 60 50 = 0 ∧
    ¬((60 : ℚ) + 50 + newUnmatchedQ 60 50 = 100) := by
  refine ⟨?_, ?_, ?_, ?_, ?_, ?_, ?_, ?_⟩
  · with_unfolding_all rfl
  · with_unfolding_all rfl
  · with_unfolding_all rfl
  · with_unfolding_all rfl
  · exact of_decide_eq_true (by with_unfolding_all rfl)
  · with_unfolding_all rfl
  · with_unfolding_all rfl
  · exact of_decide_eq_true (by with_unfolding_all rfl)

/-- C1 (amended).  For a document whose breakdown formula is found and
corrected, with canonically formatted one-decimal captures and
Explained + Background at most 100, the corrected Unmatched value equals
round(100 - Explained - Background, 1) and the three percentages then sum
to exactly 100; when Explained + Background exceeds 100 the value is
floored to 0 and the sum stays above 100 (see the counterexample). -/
theorem C1_sum_after_correction
    (doc d' : Doc) (eT bT uT : Str) (e b u : ℚ)
    (hp : patch_report doc = some d')
    (hf : findGen asFormula doc = some (eT, bT, uT))
    (he : pyFloat eT = some e) (hb : pyFloat bT = some b) (hu : pyFloat uT = some u)
    (hg : ¬(|e + b + u - 100| < 1/2))
    (hcanon : uT = format1 u) (hde : OneDec e) (hdb : OneDec b) (hle : e + b ≤ 100) :
    findGen asFormula d' = some (eT, bT, format1 (newUnmatchedQ e b)) ∧
    newUnmatchedQ e b = round1 (100 - e - b) ∧
    e + b + newUnmatchedQ e b = 100 := by
  rw [patch_report_eq_main hf he hb hu hg] at hp
  obtain ⟨d2, d3, d4, d5, h2, h3, h4, h5, rfl⟩ := patchSteps_some hp
  have hfind : findGen asFormula (d5.map fix_donut_annot) =
      some (eT, bT, if uT = format1 u then format1 (newUnmatchedQ e b) else uT) := by
    rw [annot_find asFormula (fun _ => rfl), donut_find asFormula (fun _ _ => rfl) h5,
      narrStep_find asFormula (fun _ _ => rfl) h4, heroStep_find asFormula (fun _ _ => rfl) h3,
      effStep_find asFormula (fun _ _ _ _ => rfl) h2, findGen_formula_replU, hf]
    rfl
  rw [if_pos hcanon] at hfind
  obtain ⟨hq1, hq2⟩ := newUnmatchedQ_of_le hde hdb hle
  exact ⟨hfind, hq1, hq2⟩

/-- C1 (witness).  The amended claim applied to the concrete document with
Explained 40.0, Background 30.0, Unmatched 45.0. -/
theorem C1_witness :
    findGen asFormula [Frag.formulaBar "40.0".data "30.0".data "30.0".data] =
      some ("40.0".data, "30.0".data, format1 (newUnmatchedQ 40 30)) ∧
    newUnmatchedQ 40 30 = round1 (100 - 40 - 30) ∧
    (40 : ℚ) + 30 + newUnmatchedQ 40 30 = 100 :=
  C1_sum_after_correction
    [Frag.formulaBar "40.0".data "30.0".data "45.0".data]
    [Frag.formulaBar "40.0".data "30.0".data "30.0".data]
    "40.0".data "30.0".data "45.0".data 40 30 45
    (by with_unfolding_all rfl) (by with_unfolding_all rfl)
    (by with_unfolding_all rfl) (by with_unfolding_all rfl) (by with_unfolding_all rfl)
    (of_decide_eq_true (by with_unfolding_all rfl))
    (by with_unfolding_all rfl) ⟨400, by norm_num⟩ ⟨300, by norm_num⟩ (by norm_num)

/-- C2 (counterexample).  A document whose breakdown formula is absent is
returned unchanged by patch_report, so a hero card reading 114.3 percent is
still displayed above 100 after the call. -/
theorem C2_counterexample :
    patch_report [Frag.heroCard "#e74c3c".data "114.3".data] =
      some [Frag.heroCard "#e74c3c".data "114.3".data] ∧
    findGen asHero [Frag.heroCard "#e74c3c".data "114.3".data] =
      some ("#e74c3c".data, "114.3".data) ∧
    pyFloat "114.3".data = some (1143/10) ∧ (100 : ℚ) < 1143/10 := by
  refine ⟨?_, ?_, ?_, ?_⟩
  · with_unfolding_all rfl
  · with_unfolding_all rfl
  · with_unfolding_all rfl
  · exact of_decide_eq_true (by with_unfolding_all rfl)

/-- C2 (amended).  For documents that patch_report actually corrects (the
formula is found and its sum is off by at least 0.5), and whose efficiency
equation result is canonically formatted, every displayed efficiency-like
percentage the claim lists — the equation result, the hero value, the
narrative value, and every chart annotation — is at most 100 afterwards.
Documents returned unchanged by the absent-formula or already-correct
guards may keep values above 100 (see the counterexample). -/
theorem C2_cap_after_correction
    (doc d' : Doc) (eT bT uT : Str) (e b u : ℚ)
    (hp : patch_report doc = some d')
    (hf : findGen asFormula doc = some (eT, bT, uT))
    (he : pyFloat eT = some e) (hb : pyFloat bT = some b) (hu : pyFloat uT = some u)
    (hg : ¬(|e + b + u - 100| < 1/2))
    (hcanon : ∀ aT tT col cT q, findGen asEff doc = some (aT, tT, col, cT) →
      pyFloat cT = some q → cT = format1 q) :
    (∀ aT tT col cT, findGen asEff d' = some (aT, tT, col, cT) →
      ∃ q, pyFloat cT = some q ∧ q ≤ 100) ∧
    (∀ col vT, findGen asHero d' = some (col, vT) →
      ∃ q, pyFloat vT = some q ∧ q ≤ 100) ∧
    (∀ p qT, findGen asNarr d' = some (p, qT) →
      ∃ q, pyFloat qT = some q ∧ q ≤ 100) ∧
    (∀ n, Frag.chartText n ∈ d' → n ≤ 100) := by
  rw [patch_report_eq_main hf he hb hu hg] at hp
  obtain ⟨d2, d3, d4, d5, h2, h3, h4, h5, rfl⟩ := patchSteps_some hp
  refine ⟨?_, ?_, ?_, ?_⟩
  · intro aT tT col cT hfind6
    rw [annot_find asEff (fun _ => rfl), donut_find asEff (fun _ _ => rfl) h5,
      narrStep_find asEff (fun _ _ => rfl) h4, heroStep_find asEff (fun _ _ => rfl) h3]
      at hfind6
    rcases effStep_cases h2 with ⟨hnone, hd2⟩ | ⟨aT', tT', col', cT', cq, t, hfind1, hc, ht, hd2⟩
    · rw [hd2, hnone] at hfind6
      exact absurd hfind6 (by simp)
    · have hfind_doc : findGen asEff doc = some (aT', tT', col', cT') := by
        rw [← findGen_map_eq asEff (replUnmatched u (newUnmatchedQ e b))
          (asEff_replU u (newUnmatchedQ e b)) doc]
        exact hfind1
      have hcT : cT' = format1 cq := hcanon _ _ _ _ cq hfind_doc hc
      rw [hd2, if_pos hcT] at hfind6
      have hupdate : findGen asEff ((doc.map (replUnmatched u (newUnmatchedQ e b))).map
          (replaceEq (.effEq aT' tT' col' cT')
            (.effEq aT' tT' col' (format1 (newEffQ e t))))) =
          some (aT', tT', col', format1 (newEffQ e t)) := by
        refine findGen_update asEff asEff_inj ?_ ?_ hfind1 <;> rfl
      rw [hupdate] at hfind6
      have heq := Option.some.inj hfind6
      simp only [Prod.mk.injEq] at heq
      obtain ⟨-, -, -, hcTeq⟩ := heq
      refine ⟨newEffQ e t, ?_, newEffQ_le_100 e t⟩
      rw [← hcTeq]
      exact pyFloat_format1 _ (newEffQ_nonneg (pyFloat_nonneg he)) (newEffQ_OneDec e t)
  · intro col vT hfind6
    rw [annot_find asHero (fun _ => rfl), donut_find asHero (fun _ _ => rfl) h5,
      narrStep_find asHero (fun _ _ => rfl) h4] at hfind6
    rcases heroStep_cases h3 with ⟨hnone, hd3⟩ | ⟨col', vT', v, hfind2, hv, hbr⟩
    · rw [hd3, hnone] at hfind6
      exact absurd hfind6 (by simp)
    · rcases hbr with ⟨h100, hd3⟩ | ⟨h100, hd3⟩
      · rw [hd3] at hfind6
        have hupdate : findGen asHero (d2.map (replaceEq (.heroCard col' vT')
            (.heroCard col' (format1 (min v 100))))) =
            some (col', format1 (min v 100)) := by
          refine findGen_update asHero asHero_inj ?_ ?_ hfind2 <;> rfl
        rw [hupdate] at hfind6
        have heq := Option.some.inj hfind6
        simp only [Prod.mk.injEq] at heq
        obtain ⟨-, hvt⟩ := heq
        refine ⟨100, ?_, le_refl 100⟩
        rw [← hvt, min_eq_right (le_of_lt h100)]
        exact pyFloat_format1 100 (by norm_num) ⟨1000, by norm_num⟩
      · rw [hd3, hfind2] at hfind6
        have heq := Option.some.inj hfind6
        simp only [Prod.mk.injEq] at heq
        obtain ⟨-, hvt⟩ := heq
        exact ⟨v, by rw [← hvt]; exact hv, le_of_not_lt h100⟩
  · intro p qT hfind6
    rw [annot_find asNarr (fun _ => rfl), donut_find asNarr (fun _ _ => rfl) h5] at hfind6
    rcases narrStep_cases h4 with ⟨hnone, hd4⟩ | ⟨p', qT', q, hfind3, hq, hbr⟩
    · rw [hd4, hnone] at hfind6
      exact absurd hfind6 (by simp)
    · rcases hbr with ⟨h100, hd4⟩ | ⟨h100, hd4⟩
      · rw [hd4] at hfind6
        have hupdate : findGen asNarr (d3.map (replaceEq (.narrative p' qT')
            (.narrative p' (format1 (min q 100))))) =
            some (p', format1 (min q 100)) := by
          refine findGen_update asNarr asNarr_inj ?_ ?_ hfind3 <;> rfl
        rw [hupdate] at hfind6
        have heq := Option.some.inj hfind6
        simp only [Prod.mk.injEq] at heq
        obtain ⟨-, hqt⟩ := heq
        refine ⟨100, ?_, le_refl 100⟩
        rw [← hqt, min_eq_right (le_of_lt h100)]
        exact pyFloat_format1 100 (by norm_num) ⟨1000, by norm_num⟩
      · rw [hd4, hfind3] at hfind6
        have heq := Option.some.inj hfind6
        simp only [Prod.mk.injEq] at heq
        obtain ⟨-, hqt⟩ := heq
        exact ⟨q, by rw [← hqt]; exact hq, le_of_not_lt h100⟩
  · intro n hmem
    obtain ⟨g, hg, hgf⟩ := List.mem_map.1 hmem
    cases g with
    | chartText n₀ =>
      simp only [fix_donut_annot] at hgf
      split_ifs at hgf with h100
      · injection hgf with hn
        omega
      · injection hgf with hn
        omega
    | text s => exact absurd hgf (by simp [fix_donut_annot])
    | formulaBar e' b' u' => exact absurd hgf (by simp [fix_donut_annot])
    | effEq a' t' col' c' => exact absurd hgf (by simp [fix_donut_annot])
    | heroCard col' v' => exact absurd hgf (by simp [fix_donut_annot])
    | narrative p' q' => exact absurd hgf (by simp [fix_donut_annot])
    | chartValues v' r' => exact absurd hgf (by simp [fix_donut_annot])
    | titleTag s => exact absurd hgf (by simp [fix_donut_annot])
    | h1Tag s => exact absurd hgf (by simp [fix_donut_annot])

/-- C2 (witness).  The amended claim applied to a concrete corrected
document: the recomputed equation result 57.1 is at most 100. -/
theorem C2_witness :
    ∃ q, pyFloat "57.1".data = some q ∧ q ≤ 100 :=
  (C2_cap_after_correction
    [Frag.formulaBar "40.0".data "30.0".data "45.0".data,
     Frag.effEq "40.0".data "70.0".data "#27ae60".data "114.3".data,
     Frag.heroCard "#e74c3c".data "114.3".data,
     Frag.narrative "70.0".data "114.3".data,
     Frag.chartText 114]
    [Frag.formulaBar "40.0".data "30.0".data "30.0".data,
     Frag.effEq "40.0".data "70.0".data "#27ae60".data "57.1".data,
     Frag.heroCard "#e74c3c".data "100.0".data,
     Frag.narrative "70.0".data "100.0".data,
     Frag.chartText 100]
    "40.0".data "30.0".data "45.0".data 40 30 45
    (by with_unfolding_all rfl) (by with_unfolding_all rfl)
    (by with_unfolding_all rfl) (by with_unfolding_all rfl) (by with_unfolding_all rfl)
    (of_decide_eq_true (by with_unfolding_all rfl))
    (by
      intro aT tT col cT q h₁ h₂
      have hev : findGen asEff
          [Frag.formulaBar "40.0".data "30.0".data "45.0".data,
           Frag.effEq "40.0".data "70.0".data "#27ae60".data "114.3".data,
           Frag.heroCard "#e74c3c".data "114.3".data,
           Frag.narrative "70.0".data "114.3".data,
           Frag.chartText 114] =
          some ("40.0".data, "70.0".data, "#27ae60".data, "114.3".data) := by
        with_unfolding_all rfl
      rw [hev] at h₁
      have h₁' := Option.some.inj h₁
      simp only [Prod.mk.injEq] at h₁'
      obtain ⟨-, -, -, hcT⟩ := h₁'
      rw [← hcT] at h₂ ⊢
      have hpf : pyFloat "114.3".data = some (1143/10) := by with_unfolding_all rfl
      rw [hpf] at h₂
      have hq := Option.some.inj h₂
      rw [← hq]
      with_unfolding_all rfl)).1
    "40.0".data "70.0".data "#27ae60".data "57.1".data (by with_unfolding_all rfl)

/-- C3 (confirmed).  When patch_report, correcting a document, finds the
efficiency equation with canonically formatted trailing result: if the
divisor is positive the result is replaced by round(Explained / B * 100, 1)
capped at 100.0 and otherwise by 0.0; the replacement keeps the other
captures of the matched span and leaves every fragment other than the
matched span untouched. -/
theorem C3_eff_equation
    (e cq t : ℚ) (aT tT col cT : Str) (l : Doc)
    (hfind : findGen asEff l = some (aT, tT, col, cT))
    (hc : pyFloat cT = some cq) (ht : pyFloat tT = some t) (hcanon : cT = format1 cq) :
    effStep e l = some (l.map (replaceEq (.effEq aT tT col cT)
      (.effEq aT tT col (format1 (newEffQ e t))))) ∧
    newEffQ e t = (if 0 < t then min (round1 (e / t * 100)) 100 else 0) ∧
    (∀ f : Frag, ¬(f = Frag.effEq aT tT col cT) →
      replaceEq (.effEq aT tT col cT) (.effEq aT tT col (format1 (newEffQ e t))) f = f) := by
  refine ⟨?_, rfl, ?_⟩
  · rw [effStep_eq_some hfind hc ht, if_pos hcanon]
  · intro f hne
    rw [replaceEq, if_neg hne]

/-- C3 (witness).  The spec scenario: Efficiency = 40.0 / 70.0 with
Explained 40.0 recomputes the trailing result to 57.1, and the free-text
fragment carrying the same numeric text is untouched. -/
theorem C3_witness :
    effStep 40 [Frag.effEq "40.0".data "70.0".data "#27ae60".data "114.3".data,
                Frag.text "unrelated 114.3 text".data] =
      some ([Frag.effEq "40.0".data "70.0".data "#27ae60".data "114.3".data,
             Frag.text "unrelated 114.3 text".data].map
        (replaceEq (.effEq "40.0".data "70.0".data "#27ae60".data "114.3".data)
          (.effEq "40.0".data "70.0".data "#27ae60".data (format1 (newEffQ 40 70))))) ∧
    format1 (newEffQ 40 70) = "57.1".data ∧
    replaceEq (.effEq "40.0".data "70.0".data "#27ae60".data "114.3".data)
      (.effEq "40.0".data "70.0".data "#27ae60".data (format1 (newEffQ 40 70)))
      (Frag.text "unrelated 114.3 text".data) = Frag.text "unrelated 114.3 text".data :=
  ⟨(C3_eff_equation 40 (1143/10) 70 "40.0".data "70.0".data "#27ae60".data "114.3".data
      [Frag.effEq "40.0".data "70.0".data "#27ae60".data "114.3".data,
       Frag.text "unrelated 114.3 text".data]
      (by with_unfolding_all rfl) (by with_unfolding_all rfl)
      (by with_unfolding_all rfl) (by with_unfolding_all rfl)).1,
   by with_unfolding_all rfl,
   (C3_eff_equation 40 (1143/10) 70 "40.0".data "70.0".data "#27ae60".data "114.3".data
      [Frag.effEq "40.0".data "70.0".data "#27ae60".data "114.3".data,
       Frag.text "unrelated 114.3 text".data]
      (by with_unfolding_all rfl) (by with_unfolding_all rfl)
      (by with_unfolding_all rfl) (by with_unfolding_all rfl)).2.2
     (Frag.text "unrelated 114.3 text".data)
     (by exact of_decide_eq_true (by with_unfolding_all rfl))⟩

/-- C4 (code bug).  The donut regex `"values": \[([\d.]+), [\d.]+\]` cannot
match a negative remainder, so the exact pair the defect produces,
`"values": [114.3, -14.3]`, is left unchanged by the substitution although
its first value 114.3 exceeds 100; a pair with a non-negative remainder is
rewritten to `"values": [100.0, 0]` as the claim describes.  The structured
donut callback shows the same: the span with a negative remainder is not a
match. -/
theorem C4_negative_remainder_unmatched :
    subValues "\"values\": [114.3, -14.3]".data =
      some ("\"values\": [114.3, -14.3]".data) ∧
    subValues "\"values\": [114.3, 14.3]".data = some ("\"values\": [100.0, 0]".data) ∧
    pyFloat "114.3".data = some (1143/10) ∧ (100 : ℚ) < 1143/10 ∧
    fix_donut (Frag.chartValues "114.3".data "-14.3".data) =
      some (Frag.chartValues "114.3".data "-14.3".data) := by
  refine ⟨?_, ?_, ?_, ?_, ?_⟩
  · with_unfolding_all rfl
  · with_unfolding_all rfl
  · with_unfolding_all rfl
  · exact of_decide_eq_true (by with_unfolding_all rfl)
  · with_unfolding_all rfl

/-- C5 (confirmed).  The Formula Corrector is idempotent: any completed run
of patch_report yields a fixed point of patch_report. -/
theorem C5_idempotent : ∀ doc d' : Doc, patch_report doc = some d' →
    patch_report d' = some d' := by
  intro doc d' hp
  rcases patch_report_cases hp with ⟨hf, rfl⟩ |
    ⟨eT, bT, uT, e, b, u, hf, he, hb, hu, ⟨hg, rfl⟩ | ⟨hg, hps⟩⟩
  · exact patch_report_eq_no_formula hf
  · exact patch_report_eq_guard hf he hb hu hg
  · obtain ⟨d2, d3, d4, d5, h2, h3, h4, h5, rfl⟩ := patchSteps_some hps
    exact patch_pipeline_stable hf he hb hu h2 h3 h4 h5

/-- C5 (witness).  The output of the flooring-case run is itself returned
unchanged by a second application. -/
theorem C5_witness :
    patch_report [Frag.formulaBar "60.0".data "50.0".data "0.0".data] =
      some [Frag.formulaBar "60.0".data "50.0".data "0.0".data] :=
  C5_idempotent [Frag.formulaBar "60.0".data "50.0".data "0.5".data]
    [Frag.formulaBar "60.0".data "50.0".data "0.0".data] (by with_unfolding_all rfl)

/-- C6 (confirmed).  A document whose breakdown formula is found and whose
three percentages already sum to within 0.5 of 100 is returned exactly as
it was given, with no other fragment rewritten. -/
theorem C6_noop_on_correct (doc : Doc) (eT bT uT : Str) (e b u : ℚ)
    (hf : findGen asFormula doc = some (eT, bT, uT))
    (he : pyFloat eT = some e) (hb : pyFloat bT = some b) (hu : pyFloat uT = some u)
    (hg : |e + b + u - 100| < 1/2) :
    patch_report doc = some doc :=
  patch_report_eq_guard hf he hb hu hg

/-- C6 (witness).  The guard applies to a concrete already-correct
document, and even a hero card reading 114.3 percent is left untouched. -/
theorem C6_witness :
    patch_report [Frag.formulaBar "40.0".data "30.0".data "30.0".data,
                  Frag.heroCard "#e74c3c".data "114.3".data] =
      some [Frag.formulaBar "40.0".data "30.0".data "30.0".data,
            Frag.heroCard "#e74c3c".data "114.3".data] :=
  C6_noop_on_correct
    [Frag.formulaBar "40.0".data "30.0".data "30.0".data,
     Frag.heroCard "#e74c3c".data "114.3".data]
    "40.0".data "30.0".data "30.0".data 40 30 30
    (by with_unfolding_all rfl) (by with_unfolding_all rfl) (by with_unfolding_all rfl)
    (by with_unfolding_all rfl) (by norm_num)

/-- C7 (confirmed).  When the filename carries a house identifier,
rename_titles rewrites exactly that house's id-specific title and heading
fragments, leaving the fixed aggregate strings and other houses' strings
unchanged; the fixed aggregate strings are rewritten exactly when no house
identifier is present in the filename, and then the house-specific strings
are untouched. -/
theorem C7_title_scoping (filename : Str) (doc : Doc) :
    (∀ id, findHouse filename = some id →
      rename_titles doc filename = doc.map (houseRen id) ∧
      houseRen id (Frag.titleTag (houseTitleStr id)) = Frag.titleTag (nanHouseStr id) ∧
      houseRen id (Frag.h1Tag (houseH1Str id)) = Frag.h1Tag (nanHouseStr id) ∧
      houseRen id (Frag.titleTag aggTitleStr) = Frag.titleTag aggTitleStr ∧
      houseRen id (Frag.h1Tag aggTitleStr) = Frag.h1Tag aggTitleStr ∧
      (∀ id', ¬(id' = id) →
        houseRen id (Frag.titleTag (houseTitleStr id')) = Frag.titleTag (houseTitleStr id')) ∧
      (∀ id', ¬(id' = id) →
        houseRen id (Frag.h1Tag (houseH1Str id')) = Frag.h1Tag (houseH1Str id'))) ∧
    (findHouse filename = none →
      rename_titles doc filename = doc.map aggRen ∧
      aggRen (Frag.titleTag aggTitleStr) = Frag.titleTag nanAggStr ∧
      aggRen (Frag.h1Tag aggTitleStr) = Frag.h1Tag nanAggStr ∧
      (∀ id', aggRen (Frag.titleTag (houseTitleStr id')) = Frag.titleTag (houseTitleStr id')) ∧
      (∀ id', aggRen (Frag.h1Tag (houseH1Str id')) = Frag.h1Tag (houseH1Str id'))) := by
  constructor
  · intro id hid
    refine ⟨?_, ?_, ?_, ?_, ?_, ?_, ?_⟩
    · simp only [rename_titles, hid]
    · simp [houseRen]
    · simp [houseRen]
    · simp only [houseRen]
      rw [if_neg (agg_ne_houseTitle id)]
    · simp only [houseRen]
      rw [if_neg (agg_ne_houseH1 id)]
    · intro id' hne
      simp only [houseRen]
      rw [if_neg (fun hc => hne (houseTitleStr_inj hc))]
    · intro id' hne
      simp only [houseRen]
      rw [if_neg (fun hc => hne (houseH1Str_inj hc))]
  · intro hid
    refine ⟨?_, ?_, ?_, ?_, ?_⟩
    · simp only [rename_titles, hid]
    · simp [aggRen]
    · simp [aggRen]
    · intro id'
      simp only [aggRen]
      rw [if_neg (fun hc => agg_ne_houseTitle id' hc.symm)]
    · intro id'
      simp only [aggRen]
      rw [if_neg (fun hc => agg_ne_houseH1 id' hc.symm)]

/-- C7 (witness).  The spec scenario: `dynamic_report_7.html` relabels the
house-7 title to the NaN Filled variant while an aggregate title present in
the same document is untouched. -/
theorem C7_witness :
    findHouse "dynamic_report_7.html".data = some "7".data ∧
    rename_titles [Frag.titleTag (houseTitleStr "7".data), Frag.titleTag aggTitleStr]
      "dynamic_report_7.html".data =
      [Frag.titleTag (nanHouseStr "7".data), Frag.titleTag aggTitleStr] ∧
    nanHouseStr "7".data = "Dynamic Threshold NaN Filled - House 7".data := by
  have h := (C7_title_scoping "dynamic_report_7.html".data
      [Frag.titleTag (houseTitleStr "7".data), Frag.titleTag aggTitleStr]).1
      "7".data (by with_unfolding_all rfl)
  obtain ⟨hmap, hhit, -, haggT, -, -, -⟩ := h
  refine ⟨by with_unfolding_all rfl, ?_, by with_unfolding_all rfl⟩
  rw [hmap]
  simp only [List.map_cons, List.map_nil]
  rw [hhit, haggT]

/-- C8 (confirmed).  On a directory with distinct file names, a dry run of
process_directory leaves the directory contents unchanged and returns the
same modified-document count as a real run from the same initial
contents. -/
theorem C8_dry_run (fs : FS) (hnd : (fs.map Prod.fst).Nodup) :
    process_directory fs true =
      Option.map (fun p => (fs, p.2)) (process_directory fs false) := by
  have hnd' : (sortStr ((fs.map Prod.fst).filter isPerHouse)).Nodup :=
    ((sortStr_perm _).nodup_iff).2 (hnd.filter _)
  have hph : ∀ n ∈ sortStr ((fs.map Prod.fst).filter isPerHouse), isPerHouse n = true := by
    intro n hn
    exact (List.mem_filter.1 ((sortStr_perm _).mem_iff.1 hn)).2
  rcases goHouses_rel (sortStr ((fs.map Prod.fst).filter isPerHouse)) fs fs 0 hnd' hph
      (fun _ _ => rfl) (fun _ _ => rfl) with ⟨e₁, e₂⟩ | ⟨fs₂', c, e₂, e₁, hagg⟩
  · rw [process_directory, process_directory, e₁, e₂]
    rfl
  · rw [process_directory, process_directory, e₁, e₂]
    obtain ⟨hcnt, hfs⟩ := goAggs_rel aggNames fs fs₂' c (by decide) hagg
    show some (goAggs true aggNames fs c) = some (fs, (goAggs false aggNames fs₂' c).2)
    rw [hcnt]
    congr 1
    exact Prod.ext hfs rfl

/-- C8 (witness).  The claim applied to the concrete one-file directory,
where both runs count one modified document and the dry run keeps the
contents. -/
theorem C8_witness :
    process_directory
        [("dynamic_report_7.html".data, [Frag.titleTag (houseTitleStr "7".data)])] true =
      Option.map (fun p =>
          ([("dynamic_report_7.html".data, [Frag.titleTag (houseTitleStr "7".data)])], p.2))
        (process_directory
          [("dynamic_report_7.html".data, [Frag.titleTag (houseTitleStr "7".data)])] false) ∧
    process_directory
        [("dynamic_report_7.html".data, [Frag.titleTag (houseTitleStr "7".data)])] true =
      some ([("dynamic_report_7.html".data, [Frag.titleTag (houseTitleStr "7".data)])], 1) :=
  ⟨C8_dry_run [("dynamic_report_7.html".data, [Frag.titleTag (houseTitleStr "7".data)])]
      (by simp),
   by with_unfolding_all rfl⟩

/-- C9 (counterexample).  With `--dry-run` as the only argument no
directory argument is supplied, yet the run completes with exit code 0, so
the claimed equivalence fails in the only-if direction. -/
theorem C9_counterexample :
    dirArgs [dryFlag] = [] ∧ mainRun [dryFlag] (fun _ => none) = some 0 ∧
    ¬([dryFlag] = ([] : List Str)) := by
  refine ⟨by with_unfolding_all rfl, by with_unfolding_all rfl, by simp⟩

/-- C9 (amended).  On every completed run the exit code is nonzero exactly
when the argument list is empty; supplying only `--dry-run` (no directory
arguments) still exits 0. -/
theorem C9_exit_code (args : List Str) (world : Str → Option FS) (c : ℕ)
    (h : mainRun args world = some c) : ¬(c = 0) ↔ args = [] := by
  by_cases hn : args = []
  · subst hn
    rw [mainRun, if_pos rfl] at h
    have hc := Option.some.inj h
    rw [← hc]
    simp
  · rw [mainRun, if_neg hn] at h
    rcases hm : mainGo (args.any (fun a => a = dryFlag)) world (dirArgs args) 0 with _ | t <;>
      simp only [hm] at h
    · exact absurd h (by simp)
    · have hc := Option.some.inj h
      rw [← hc]
      simp [hn]

/-- C9 (witness).  The amended claim applied to the empty argument list,
which exits with code 1. -/
theorem C9_witness : ¬((1 : ℕ) = 0) ↔ ([] : List Str) = [] :=
  C9_exit_code [] (fun _ => none) 1 (by with_unfolding_all rfl)

/-- C10 (counterexample).  A breakdown capture such as `1.2.3` matches the
structural pattern `[\d.]+` but fails Python float conversion, so
patch_report aborts with an uncaught ValueError instead of degrading to a
no-op. -/
theorem C10_counterexample :
    patch_report [Frag.formulaBar "1.2.3".data "30.0".data "20.0".data] = none ∧
    isNumText "1.2.3".data = true ∧ pyFloat "1.2.3".data = none := by
  refine ⟨?_, ?_, ?_⟩ <;> with_unfolding_all rfl

/-- C10 (amended).  patch_report never raises on a document whose matched
numeric captures are well-formed numerals, and a document without the
breakdown formula is returned unchanged; a malformed numeral in a matched
fragment aborts the run, as the error-handling section of the spec
documents. -/
theorem C10_total_on_wellformed :
    (∀ doc : Doc, (∀ f ∈ doc, fragWF f = true) → ∃ d', patch_report doc = some d') ∧
    (∀ doc : Doc, findGen asFormula doc = none → patch_report doc = some doc) := by
  constructor
  · intro doc hwf
    rcases hf : findGen asFormula doc with _ | ⟨eT, bT, uT⟩
    · exact ⟨doc, patch_report_eq_no_formula hf⟩
    · obtain ⟨g, hg, hgx⟩ := findGen_mem asFormula hf
      rw [asFormula_eq_some] at hgx
      have hwfg := hwf g hg
      rw [hgx] at hwfg
      simp only [fragWF, Bool.and_eq_true, Option.isSome_iff_exists] at hwfg
      obtain ⟨⟨⟨e, he⟩, b, hb⟩, u, hu⟩ := hwfg
      by_cases hg2 : |e + b + u - 100| < 1/2
      · exact ⟨doc, patch_report_eq_guard hf he hb hu hg2⟩
      · have hwf1 : ∀ f ∈ doc.map (replUnmatched u (newUnmatchedQ e b)), fragWF f = true := by
          intro f hfm
          obtain ⟨f₀, hf₀, rfl⟩ := List.mem_map.1 hfm
          exact fragWF_replU (hwf f₀ hf₀)
        obtain ⟨d2, h2, hwf2⟩ := effStep_WF e hwf1
        obtain ⟨d3, h3, hwf3⟩ := heroStep_WF hwf2
        obtain ⟨d4, h4, hwf4⟩ := narrStep_WF hwf3
        obtain ⟨d5, h5⟩ := optMapM_isSome (fun f hfm => fix_donut_WF (hwf4 f hfm))
        refine ⟨d5.map fix_donut_annot, ?_⟩
        rw [patch_report_eq_main hf he hb hu hg2]
        exact patchSteps_eq h2 h3 h4 h5
  · exact fun doc h => patch_report_eq_no_formula h

/-- C10 (witness).  The amended claim applied to a concrete well-formed
faulty document. -/
theorem C10_witness :
    ∃ d', patch_report [Frag.formulaBar "40.0".data "30.0".data "45.0".data] = some d' :=
  C10_total_on_wellformed.1 [Frag.formulaBar "40.0".data "30.0".data "45.0".data]
    (by
      intro f hf
      rw [List.mem_singleton] at hf
      subst hf
      with_unfolding_all rfl)

end NilmPatch
